import Mathlib

/-
Verification of src/tools/rawconfig.py: a tool that edits the selected
partition-scheme value inside a JSON document stored in the Arduino IDE's
LevelDB local storage.

The embedding has two layers.

Document layer: the store maps string keys to parsed JSON documents
(`Store`).  `read_key_doc` models the net effect of the source's
`read_key` (lines 184-196) once the stored bytes decode to a JSON object;
the byte-level behaviour of `read_key` itself (envelope byte, brace
slicing, parse failure) is modelled separately by `read_key` below at the
string level, with `json.loads` as a parameter.  All read projections
(`read_value`, `read_object`, `read_property`, `read_configOptions`) and
the writer `write_value` are translated statement by statement from the
source at the document layer.  Python runtime exceptions
(KeyError/TypeError/AttributeError/NameError) and `sys.exit(1)` are
modelled as the error side of `Except WErr`.

Key layer: LevelDB keys are strings; `get_sketch` (lines 167-180), the
key construction of `__main__` (lines 385-396) and the sketch filter
(lines 407-425) are translated over them.
-/

set_option maxHeartbeats 1000000
set_option maxRecDepth 4000

/-- JSON values as Python's json module produces them (dicts keep insertion
order, so objects are association lists). -/
inductive Json where
  | null : Json
  | bool : Bool → Json
  | num : Int → Json
  | str : String → Json
  | arr : List Json → Json
  | obj : List (String × Json) → Json

/-- Failure modes of the translated Python code: `exitFail` is a printed
error followed by sys.exit(1); the others are the Python exceptions the
corresponding operations raise. -/
inductive WErr where
  | exitFail : WErr
  | keyError : WErr
  | typeError : WErr
  | attrError : WErr
  | nameError : WErr
deriving DecidableEq

/-- First binding of a key in a Python-dict association list (Python dicts
have unique keys, so first = only). -/
def lookupField : List (String × Json) → String → Option Json
  | [], _ => none
  | (k', v) :: rest, k => if k' = k then some v else lookupField rest k

/-- Python `d[k] = v`: replace in place if the key exists, else append. -/
def setField : List (String × Json) → String → Json → List (String × Json)
  | [], k, v => [(k, v)]
  | (k', v') :: rest, k, v =>
    if k' = k then (k', v) :: rest else (k', v') :: setField rest k v

/-- Whether a key occurs in the association list. -/
def keyMem (k : String) : List (String × Json) → Bool
  | [] => false
  | (k', _) :: rest => if k' = k then true else keyMem k rest

/-- The association list binds no key twice (true of every dict produced by
Python's json.loads). -/
def noDupKeys : List (String × Json) → Bool
  | [] => true
  | (k, _) :: rest => !keyMem k rest && noDupKeys rest

/-- The top-level fields of a JSON object bind no key twice; trivially true
for non-objects. -/
def objNoDup : Json → Bool
  | Json.obj fs => noDupKeys fs
  | _ => true

/-- Python `x.get(k)` on a JSON value: dicts give the binding or None,
anything else raises AttributeError. -/
def pyGet (j : Json) (k : String) : Except WErr (Option Json) :=
  match j with
  | Json.obj fs => Except.ok (lookupField fs k)
  | _ => Except.error WErr.attrError

/-- Python `x.get(k, d)` with a default. -/
def pyGetD (j : Json) (k : String) (d : Json) : Except WErr Json :=
  match j with
  | Json.obj fs => Except.ok ((lookupField fs k).getD d)
  | _ => Except.error WErr.attrError

/-- Python `x[k]` for a string k: KeyError when missing, TypeError on a
non-dict. -/
def getItem (j : Json) (k : String) : Except WErr Json :=
  match j with
  | Json.obj fs =>
    match lookupField fs k with
    | some v => Except.ok v
    | none => Except.error WErr.keyError
  | _ => Except.error WErr.typeError

/-- Python `x[k] = v` for a string k: item assignment works on dicts only. -/
def setItem (j : Json) (k : String) (v : Json) : Except WErr Json :=
  match j with
  | Json.obj fs => Except.ok (Json.obj (setField fs k v))
  | _ => Except.error WErr.typeError

/-- Python `x.update(other)`: merge other's bindings into x in order.
Non-dict receiver raises AttributeError, non-dict argument TypeError. -/
def updFields (fs os : List (String × Json)) : List (String × Json) :=
  os.foldl (fun acc kv => setField acc kv.1 kv.2) fs

/-- See updFields. -/
def pyUpdate (j other : Json) : Except WErr Json :=
  match j, other with
  | Json.obj fs, Json.obj os => Except.ok (Json.obj (updFields fs os))
  | Json.obj _, _ => Except.error WErr.typeError
  | _, _ => Except.error WErr.attrError

/-- Python iteration `for x in j`: lists give their elements, strings their
characters, dicts their keys; numbers, booleans and None raise TypeError. -/
def pyIter (j : Json) : Except WErr (List Json) :=
  match j with
  | Json.arr xs => Except.ok xs
  | Json.str s => Except.ok (s.data.map (fun c => Json.str (String.mk [c])))
  | Json.obj fs => Except.ok (fs.map (fun kv => Json.str kv.1))
  | _ => Except.error WErr.typeError

/-- Python truthiness of a JSON value. -/
def Json.isTruthy : Json → Bool
  | Json.null => false
  | Json.bool b => b
  | Json.num n => n != 0
  | Json.str s => s != ""
  | Json.arr xs => !xs.isEmpty
  | Json.obj fs => !fs.isEmpty

/-- Python `x == s` where s is one of the CLI's string arguments: true
exactly when x is that string (None, missing values, numbers, booleans,
containers all compare unequal to a str). -/
def isStrEqJ (x : Json) (s : String) : Bool :=
  match x with
  | Json.str t => decide (t = s)
  | _ => false

/-- `x == s` where x may be None (a missing dict entry). -/
def isStrEq (x : Option Json) (s : String) : Bool :=
  match x with
  | some j => isStrEqJ j s
  | none => false

/-- Index-carrying search loop behind Python str.find: the first position
at which sub is a prefix of the rest of s. -/
def findSubAux (s sub : List Char) (i : Nat) : Option Nat :=
  if sub.isPrefixOf s then some i
  else
    match s with
    | [] => none
    | _ :: t => findSubAux t sub (i + 1)

/-- Python `s.find(sub)`: first index of the substring, or -1. -/
def strFind (s sub : String) : Int :=
  match findSubAux s.data sub.data 0 with
  | some i => (i : Int)
  | none => -1

/-- Python `sub in s` on strings: substring containment. -/
def containsStr (s sub : String) : Bool :=
  (findSubAux s.data sub.data 0).isSome

/-- Python slicing s[a:b] for the in-range, non-negative indices this
program produces. -/
def pySliceStr (s : String) (a b : Int) : String :=
  String.mk ((s.data.drop a.toNat).take (b.toNat - a.toNat))

/-- Python `k in d` (dict key membership; list membership and substring
on the other containers, TypeError otherwise). -/
def pyContains (j : Json) (k : String) : Except WErr Bool :=
  match j with
  | Json.obj fs => Except.ok (keyMem k fs)
  | Json.arr xs => Except.ok (xs.any (fun x => isStrEqJ x k))
  | Json.str s => Except.ok (containsStr s k)
  | _ => Except.error WErr.typeError

/-- The document-layer store: LevelDB keys to parsed JSON documents. -/
abbrev Store := List (String × Json)

/-- Raw lookup in the store. -/
def lookupStore : Store → String → Option Json
  | [], _ => none
  | (k', v) :: rest, k => if k' = k then some v else lookupStore rest k

/-- Store write: `db.put(key, value)` (source write_key, lines 200-204;
I/O failure is out of the document layer). -/
def storeSet : Store → String → Json → Store
  | [], k, v => [(k, v)]
  | (k', v') :: rest, k, v =>
    if k' = k then (k', v) :: rest else (k', v') :: storeSet rest k v

/-- write_key, document layer. -/
def write_key (db : Store) (key : String) (d : Json) : Store :=
  storeSet db key d

/-- read_key at the document layer (lines 184-196): the parsed document
under the key, or the empty dict when the key is absent (the byte-level
failure cases, which also give the empty dict, live in `read_key` below). -/
def read_key_doc (db : Store) (key : String) : Json :=
  match lookupStore db key with
  | some d => d
  | none => Json.obj []

/-- The list comprehension of read_value/read_object (lines 213, 234):
options whose "option" field equals the argument, in order. -/
def filterOptions : List Json → String → Except WErr (List Json)
  | [], _ => Except.ok []
  | item :: rest, o => do
    let x ← pyGet item "option"
    let rest' ← filterOptions rest o
    if isStrEq x o then Except.ok (item :: rest') else Except.ok rest'

/-- Inner loop of read_value (lines 219-222): the values of one list whose
"value" field equals the argument. -/
def collectValuesIn : List Json → String → Except WErr (List Json)
  | [], _ => Except.ok []
  | item :: rest, v => do
    let x ← pyGet item "value"
    let rest' ← collectValuesIn rest v
    if isStrEq x v then Except.ok (item :: rest') else Except.ok rest'

/-- Outer loop of read_value (lines 216-222): flatten the matching values
of every matching option, via `item.get("values", [])`. -/
def collectValues : List Json → String → Except WErr (List Json)
  | [], _ => Except.ok []
  | item :: rest, v => do
    let vals ← pyGetD item "values" (Json.arr [])
    let valsL ← pyIter vals
    let here ← collectValuesIn valsL v
    let there ← collectValues rest v
    Except.ok (here ++ there)

/-- read_value (lines 208-225). -/
def read_value (db : Store) (key p o v : String) : Except WErr (List Json) := do
  let data := read_key_doc db key
  if data.isTruthy then do
    let props? ← pyGet data p
    match props? with
    | some props =>
      if props.isTruthy then do
        let items ← pyIter props
        let options ← filterOptions items o
        match options with
        | [] => Except.ok []
        | _ :: _ => do
          let array ← collectValues options v
          match array with
          | [] => Except.ok []
          | _ :: _ => Except.ok array
      else Except.ok []
    | none => Except.ok []
  else Except.ok []

/-- read_object (lines 229-237). -/
def read_object (db : Store) (key p o : String) : Except WErr (List Json) := do
  let data := read_key_doc db key
  if data.isTruthy then do
    let props? ← pyGet data p
    match props? with
    | some props =>
      if props.isTruthy then do
        let items ← pyIter props
        let options ← filterOptions items o
        match options with
        | [] => Except.ok []
        | _ :: _ => Except.ok options
      else Except.ok []
    | none => Except.ok []
  else Except.ok []

/-- read_property (lines 241-247): the raw value stored under the property
name, or the empty list when absent or falsy. -/
def read_property (db : Store) (key p : String) : Except WErr Json := do
  let data := read_key_doc db key
  if data.isTruthy then do
    let props? ← pyGet data p
    match props? with
    | some props =>
      if props.isTruthy then Except.ok props else Except.ok (Json.arr [])
    | none => Except.ok (Json.arr [])
  else Except.ok (Json.arr [])

/-- read_configOptions (lines 251-255). -/
def read_configOptions (db : Store) (key : String) : Json :=
  let data := read_key_doc db key
  if data.isTruthy then data else Json.obj []

/-- First loop of write_value (lines 266-268): mark every read value whose
"value" field equals v as selected. -/
def markSelected : List Json → String → Except WErr (List Json)
  | [], _ => Except.ok []
  | item :: rest, v => do
    let x ← pyGet item "value"
    let item' ← if isStrEq x v then setItem item "selected" (Json.bool true)
                else Except.ok item
    let rest' ← markSelected rest v
    Except.ok (item' :: rest')

/-- Lines 276-277: set selected = False on every value of the option. -/
def clearSelected : List Json → Except WErr (List Json)
  | [] => Except.ok []
  | vi :: rest => do
    let vi' ← setItem vi "selected" (Json.bool false)
    let rest' ← clearSelected rest
    Except.ok (vi' :: rest')

/-- Lines 279-288: walk the values, and at the first one whose "value"
field equals v merge in upd (if upd is a dict) and stop; not_written is the
source's function-scoped flag, None standing for "never assigned"
(reading it then raises NameError). -/
def insertValue : List Json → String → Json → Option Bool →
    Except WErr (List Json × Option Bool)
  | [], _, _, nw0 => Except.ok ([], nw0)
  | vi :: rest, v, upd, nw0 => do
    let x ← pyGet vi "value"
    if isStrEq x v then
      match upd with
      | Json.obj _ => do
        let vi' ← pyUpdate vi upd
        Except.ok (vi' :: rest, some false)
      | _ => Except.ok (vi :: rest, some true)
    else do
      let r ← insertValue rest v upd (some true)
      Except.ok (vi :: r.1, r.2)

/-- In Python the loops of lines 276-288 mutate the elements of the list
object held under "values"; a non-list that reaches reconstruction had no
elements mutated, so it is kept as is. -/
def reconstructSeq (orig : Json) (elems : List Json) : Json :=
  match orig with
  | Json.arr _ => Json.arr elems
  | other => other

/-- Outer loop of write_value's step 3 (lines 274-291): for every matching
option clear all selections, splice the updated value back in, and exit(1)
if the value was not written. -/
def updateOptions : List Json → String → String → Json → Option Bool →
    Except WErr (List Json × Option Bool)
  | [], _, _, _, nw0 => Except.ok ([], nw0)
  | item :: rest, o, v, upd, nw0 => do
    let x ← pyGet item "option"
    if isStrEq x o then do
      let vals ← getItem item "values"
      let valsL ← pyIter vals
      let cleared ← clearSelected valsL
      let r ← insertValue cleared v upd nw0
      match r.2 with
      | none => Except.error WErr.nameError
      | some true => Except.error WErr.exitFail
      | some false => do
        let item' ← setItem item "values" (reconstructSeq vals r.1)
        let rest' ← updateOptions rest o v upd (some false)
        Except.ok (item' :: rest'.1, rest'.2)
    else do
      let rest' ← updateOptions rest o v upd nw0
      Except.ok (item :: rest'.1, rest'.2)

/-- Step 4 of write_value (lines 296-304): find the first option of the
property whose "option" field equals o, merge the updated option into it
and stop; every miss sets not_written. -/
def spliceOption : List Json → String → Json → Option Bool →
    Except WErr (List Json × Option Bool)
  | [], _, _, nw0 => Except.ok ([], nw0)
  | item :: rest, o, newOpt, nw0 => do
    let x ← pyGet item "option"
    if isStrEq x o then do
      let item' ← pyUpdate item newOpt
      Except.ok (item' :: rest, some false)
    else do
      let r ← spliceOption rest o newOpt (some true)
      Except.ok (item :: r.1, r.2)

/-- write_value (lines 259-321), document layer: Except.ok (some d) means
the final put writes document d under the key; Except.ok none means the
function fell through without writing (a falsy read at some level);
Except.error models sys.exit(1) and the Python exceptions. -/
def write_value (db : Store) (key p o v : String) :
    Except WErr (Option Json) := do
  let jow ← read_value db key p o v
  match jow with
  | [] => Except.ok none
  | _ :: _ => do
    let jow2 ← markSelected jow v
    let jopt ← read_object db key p o
    match jopt with
    | [] => Except.ok none
    | _ :: _ => do
      let upd := jow2.headD Json.null
      let r3 ← updateOptions jopt o v upd none
      let jprop ← read_property db key p
      if jprop.isTruthy then do
        let items ← pyIter jprop
        let r4 ← spliceOption items o (r3.1.headD Json.null) r3.2
        match r4.2 with
        | none => Except.error WErr.nameError
        | some true => Except.error WErr.exitFail
        | some false => do
          let data := read_configOptions db key
          if data.isTruthy then do
            let mem ← pyContains data p
            if mem then do
              let d' ← setItem data p (reconstructSeq jprop r4.1)
              Except.ok (some d')
            else Except.error WErr.exitFail
          else Except.ok none
      else Except.ok none

/-- write_value together with its effect on the store: the put of line 321
happens exactly when the document-layer writer returns ok (some d). -/
def write_value_store (db : Store) (key p o v : String) :
    Store × Except WErr Unit :=
  match write_value db key p o v with
  | Except.ok (some d) => (write_key db key d, Except.ok ())
  | Except.ok none => (db, Except.ok ())
  | Except.error e => (db, Except.error e)

/-- db.iterator with a key prefix (line 170): the store's keys that start
with the prefix; plyvel iterates keys in sorted order, and the stores
written in this file list their pairs in that order. -/
def iterKeys (db : Store) (pfx : String) : List String :=
  match db with
  | [] => []
  | (k, _) :: rest =>
    if pfx.data.isPrefixOf k.data then k :: iterKeys rest pfx
    else iterKeys rest pfx

/-- Loop body of get_sketch (lines 170-177). -/
def get_sketch_aux : List String → String → List String
  | [], _ => []
  | k :: rest, board =>
    if containsStr k (".arduinoIDE-configOptions-" ++ board) then
      let start : Int := strFind k "theia:" + 6
      let endI : Int := strFind k (":.arduinoIDE-configOptions-" ++ board)
      if start != -1 && endI != -1 && decide (start < endI) then
        pySliceStr k start endI :: get_sketch_aux rest board
      else get_sketch_aux rest board
    else get_sketch_aux rest board

/-- get_sketch (lines 167-180): the sketch paths embedded in the board's
sketch-specific keys. -/
def get_sketch (db : Store) (board : String) : List String :=
  get_sketch_aux (iterKeys db "_file://\x00\x01theia:") board

/-- The board-global key of the __main__ key construction (lines 394-396). -/
def globalKeyStr (board : String) : String :=
  "_file://" ++ "\x00" ++ "\x01" ++ ("theia:.arduinoIDE-configOptions-" ++ board)

/-- The sketch-specific key of the __main__ key construction
(lines 389-392). -/
def sketchKeyStr (board sketch : String) : String :=
  "_file://" ++ "\x00" ++ "\x01" ++
    ("theia:" ++ sketch ++ (":.arduinoIDE-configOptions-" ++ board))

/-- Key resolution of __main__ (lines 385-396): sketch-specific keys for
every sketch found, else the single board-global key.  When no sketch
filter argument is given, the NameError fallback (lines 426-430) iterates
exactly this list. -/
def all_keys (db : Store) (board : String) : List String :=
  match get_sketch db board with
  | [] => [globalKeyStr board]
  | l@(_ :: _) => l.map (fun sk => sketchKeyStr board sk)

/-- Python s.strip(c): remove the character from both ends. -/
def pyStrip (s : String) (c : Char) : String :=
  String.mk (((s.data.dropWhile (fun x => x == c)).reverse.dropWhile
    (fun x => x == c)).reverse)

/-- Sketch-path extraction of the filter branch (lines 416-419): slice
between len("_file:// 0x00 0x01 theia") and the first occurrence of the
board suffix, then strip colons. -/
def extract_sketch_path (key board : String) : String :=
  let pfx := "_file://\x00\x01theia"
  let sfx := ".arduinoIDE-configOptions-" ++ board
  pyStrip (pySliceStr key ((pfx.length : Int)) (strFind key sfx)) ':'

/-- Models the stdlib call re.search with the f-string pattern of line 420
for a literal (metacharacter-free) filter: the pattern
caret file:///.*?/filter dollar matches exactly the strings that start
with file:/// and whose remainder after those 8 characters ends with
slash-filter. -/
def matchesSketchPattern (path f : String) : Bool :=
  "file:///".data.isPrefixOf path.data &&
    ("/" ++ f).data.isSuffixOf (path.data.drop 8)

/-- The filter loop of __main__ (lines 410-422): keep the candidate keys of
the right shape whose extracted sketch path matches the filter pattern. -/
def matching_keys : List String → String → String → List String
  | [], _, _ => []
  | key :: rest, board, f =>
    let pfx := "_file://\x00\x01theia"
    let sfx := ".arduinoIDE-configOptions-" ++ board
    if pfx.data.isPrefixOf key.data && sfx.data.isSuffixOf key.data then
      if matchesSketchPattern (extract_sketch_path key board) f then
        key :: matching_keys rest board f
      else matching_keys rest board f
    else matching_keys rest board f

/-- Python s.rfind(c): last index of the character, or -1. -/
def strRFind (s : String) (c : Char) : Int :=
  match findSubAux s.data.reverse [c] 0 with
  | some i => (s.data.length : Int) - 1 - i
  | none => -1

/-- The opening brace character (0x7b). -/
def braceOpen : Char := Char.ofNat 123

/-- The closing brace character (0x7d). -/
def braceClose : Char := Char.ofNat 125

/-- The byte-level store: keys to raw stored strings (the decoded bytes,
envelope byte included). -/
abbrev StoreB := List (String × String)

/-- Raw lookup in the byte-level store; None when the key is absent. -/
def lookupStoreB : StoreB → String → Option String
  | [], _ => none
  | (k', v) :: rest, k => if k' = k then some v else lookupStoreB rest k

/-- read_key (lines 184-196) at the string level, with json.loads as the
parameter parse.  Returns the decoded document and whether an error
message was printed: absent key, empty bytes, no brace span, and parse
failure all yield the empty dict, and only the parse failure prints. -/
def read_key (parse : String → Option Json) (db : StoreB) (key : String) :
    Json × Bool :=
  match lookupStoreB db key with
  | none => (Json.obj [], false)
  | some bs =>
    if bs != "" then
      let start_index := strFind bs (String.mk [braceOpen])
      let end_index := strRFind bs braceClose
      if start_index != -1 && end_index != -1 then
        match parse (pySliceStr bs start_index (end_index + 1)) with
        | some j => (j, false)
        | none => (Json.obj [], true)
      else (Json.obj [], false)
    else (Json.obj [], false)

/-- Pure field lookup on a JSON value, for stating properties of
documents (the binding under a key of an object, if any). -/
def Json.get (j : Json) (k : String) : Option Json :=
  match j with
  | Json.obj fs => lookupField fs k
  | _ => none

/-- Whether a value entry carries selected = true. -/
def selTrue (x : Json) : Bool :=
  match Json.get x "selected" with
  | some (Json.bool true) => true
  | _ => false

/-- How many entries of an option's values list carry selected = true. -/
def countSelected (j : Json) : Nat :=
  match Json.get j "values" with
  | some (Json.arr vs) => (vs.filter selTrue).length
  | _ => 0

/-- The single option entry of the scenario document. -/
def exOpt : Json :=
  Json.obj [("option", Json.str "PartitionScheme"),
            ("values", Json.arr
              [Json.obj [("value", Json.str "default"), ("selected", Json.bool true)],
               Json.obj [("value", Json.str "custom"), ("selected", Json.bool false)]])]

/-- The partition-scheme document of the spec's scenario, before the
write. -/
def exDoc : Json :=
  Json.obj [("configOptions", Json.arr
    [Json.obj [("option", Json.str "PartitionScheme"),
               ("values", Json.arr
                 [Json.obj [("value", Json.str "default"),
                            ("selected", Json.bool true)],
                  Json.obj [("value", Json.str "custom"),
                            ("selected", Json.bool false)]])]])]

/-- The scenario document after writing (configOptions, PartitionScheme,
custom). -/
def exDocAfter : Json :=
  Json.obj [("configOptions", Json.arr
    [Json.obj [("option", Json.str "PartitionScheme"),
               ("values", Json.arr
                 [Json.obj [("value", Json.str "default"),
                            ("selected", Json.bool false)],
                  Json.obj [("value", Json.str "custom"),
                            ("selected", Json.bool true)]])]])]

/-- The board identifier used by the concrete stores. -/
def demoBoard : String := "esp32:esp32:esp32"

/-- The key the scenario document is stored under. -/
def exKey : String := globalKeyStr demoBoard

/-- A store holding just the scenario document. -/
def exDb : Store := [(exKey, exDoc)]

/-- An option named X whose list holds v1 (unselected) and v2 (selected):
used twice in a document to exhibit duplicate option names. -/
def dupOpt : Json :=
  Json.obj [("option", Json.str "X"),
            ("values", Json.arr
              [Json.obj [("value", Json.str "v1"), ("selected", Json.bool false)],
               Json.obj [("value", Json.str "v2"), ("selected", Json.bool true)]])]

/-- A document whose property holds two options with the same name. -/
def dupDb : Store := [("k", Json.obj [("configOptions", Json.arr [dupOpt, dupOpt])])]

/-- A v2 entry with selected = false. -/
def v2False : Json :=
  Json.obj [("value", Json.str "v2"), ("selected", Json.bool false)]

/-- A v2 entry with selected = true. -/
def v2True : Json :=
  Json.obj [("value", Json.str "v2"), ("selected", Json.bool true)]

/-- A document with duplicate options X where only the first holds value
a: the write-side splice of a then fails on the second duplicate. -/
def spliceFailDb : Store :=
  [("k", Json.obj [("configOptions", Json.arr
    [Json.obj [("option", Json.str "X"),
               ("values", Json.arr [Json.obj [("value", Json.str "a")]])],
     Json.obj [("option", Json.str "X"),
               ("values", Json.arr [Json.obj [("value", Json.str "b")]])]])])]

/-- The longer board identifier of which demoBoard is a proper prefix. -/
def demoBoardS3 : String := "esp32:esp32:esp32s3"

/-- A sketch path with a configuration for demoBoard. -/
def demoSketchA : String := "file:///home/user/SketchA"

/-- A sketch path with a configuration for demoBoardS3. -/
def demoSketchB : String := "file:///home/user/SketchB"

/-- A store with one sketch key per board, the second belonging to the
longer board identifier. -/
def overlapDb : Store :=
  [(sketchKeyStr demoBoard demoSketchA, Json.null),
   (sketchKeyStr demoBoardS3 demoSketchB, Json.null)]

/-- A sketch path that itself contains the board's key delimiter. -/
def badSketch : String := "x:.arduinoIDE-configOptions-b:y"

/-- The sketch-specific keys of the ProjA / ProjB filter scenario. -/
def projKeyA : String := sketchKeyStr demoBoard "file:///home/user/ProjA"

/-- See projKeyA. -/
def projKeyB : String := sketchKeyStr demoBoard "file:///home/user/ProjB"

/-- A parse function that always fails, standing in for json.loads on
malformed input. -/
def parse0 : String → Option Json := fun _ => none

/-- A store holding one sketch-specific document for demoBoard and no
board-global one. -/
def c3Db : Store := [(sketchKeyStr demoBoard demoSketchA, Json.null)]

/-- Bind on ok reduces. -/
@[simp] theorem ok_bind {α β : Type} (a : α) (f : α → Except WErr β) :
    (Except.ok a >>= f : Except WErr β) = f a := rfl

/-- Bind on error short-circuits. -/
@[simp] theorem error_bind {α β : Type} (e : WErr) (f : α → Except WErr β) :
    (Except.error e >>= f : Except WErr β) = Except.error e := rfl

/-- C2: running the selection write on the concrete scenario document with
arguments (configOptions, PartitionScheme, custom) produces exactly the
expected document, with default deselected and custom selected, and the
store afterwards holds exactly that document under the same key. -/
theorem write_value_scenario_custom :
    write_value exDb exKey "configOptions" "PartitionScheme" "custom"
      = Except.ok (some exDocAfter) ∧
    (write_value_store exDb exKey "configOptions" "PartitionScheme" "custom").1
      = [(exKey, exDocAfter)] :=
  ⟨rfl, rfl⟩

/-- C10: get_sketch matches keys by substring containment of the board
suffix, so scanning for esp32:esp32:esp32 also returns the sketch stored
for esp32:esp32:esp32s3, while scanning for the longer board returns only
its own sketch. -/
theorem get_sketch_board_prefix_overlap :
    get_sketch overlapDb demoBoard = [demoSketchA, demoSketchB] ∧
    get_sketch overlapDb demoBoardS3 = [demoSketchB] :=
  ⟨rfl, rfl⟩

/-- C4 counterexample: writing a value name absent from the target
option's list does not fail with an error (and hence does not exit 1): it
returns silently with no put, the store left exactly as it was. -/
theorem write_value_absent_value_cex :
    write_value exDb exKey "configOptions" "PartitionScheme" "nope"
      = Except.ok none ∧
    (Except.ok (none : Option Json) : Except WErr (Option Json))
      ≠ Except.error WErr.exitFail ∧
    (write_value_store exDb exKey "configOptions" "PartitionScheme" "nope").1
      = exDb :=
  ⟨rfl, fun h => Except.noConfusion h, rfl⟩

/-- C4 (amended): when the read projection finds no value of the requested
name (the value is absent from the target option's value list), write_value
returns silently without reporting any error, performs no put, and the
store is left exactly as it was before the call. -/
theorem write_value_absent_value_silent (db : Store) (key p o v : String)
    (h : read_value db key p o v = Except.ok []) :
    write_value db key p o v = Except.ok none ∧
    (write_value_store db key p o v).1 = db := by
  have hw : write_value db key p o v = Except.ok none := by
    unfold write_value
    rw [h]
    rfl
  refine ⟨hw, ?_⟩
  unfold write_value_store
  rw [hw]

/-- Witness for C4's amended theorem at the scenario document and the
absent value name nope. -/
theorem write_value_absent_value_silent_witness :
    write_value exDb exKey "configOptions" "PartitionScheme" "nope"
      = Except.ok none ∧
    (write_value_store exDb exKey "configOptions" "PartitionScheme" "nope").1
      = exDb :=
  write_value_absent_value_silent exDb exKey "configOptions" "PartitionScheme"
    "nope" rfl

/-- C5: if write_value fails at any stage (a Python error or a printed
error followed by exit(1), in particular every failed write-side re-lookup
during the multi-level splice), no put is issued: the store is exactly
what it was before the call. -/
theorem write_value_error_preserves_store (db : Store) (key p o v : String)
    (e : WErr) (h : write_value db key p o v = Except.error e) :
    (write_value_store db key p o v).1 = db := by
  unfold write_value_store
  rw [h]

/-- Witness for C5 at a store whose second duplicate option lacks the
written value, making the write-side splice fail with exit(1). -/
theorem write_value_error_preserves_store_witness :
    write_value spliceFailDb "k" "configOptions" "X" "a"
      = Except.error WErr.exitFail ∧
    (write_value_store spliceFailDb "k" "configOptions" "X" "a").1
      = spliceFailDb :=
  ⟨rfl, write_value_error_preserves_store spliceFailDb "k" "configOptions" "X"
    "a" WErr.exitFail rfl⟩

/-- C1 counterexample: on a document whose property holds two options both
named X, writing v1 succeeds (reaches the final put), yet a subsequent
read of v2 returns an entry whose selected flag is still true — the
second duplicate option is never spliced back, so exclusivity fails. -/
theorem write_value_exclusive_cex :
    (write_value_store dupDb "k" "configOptions" "X" "v1").2 = Except.ok () ∧
    read_value (write_value_store dupDb "k" "configOptions" "X" "v1").1
        "k" "configOptions" "X" "v2"
      = Except.ok [v2False, v2True] ∧
    Json.get v2True "selected" = some (Json.bool true) :=
  ⟨rfl, rfl, rfl⟩

/-- C9: read_key returns the same empty dict in all three failure
situations — key absent from the store, stored bytes containing no brace
span, and a parse failure on the bytes between the located braces — so a
caller cannot tell them apart from the return value; only the parse
failure prints a message (the Boolean component). -/
theorem read_key_empty_indistinct
    (parse : String → Option Json) (db : StoreB) (key bs : String) :
    (lookupStoreB db key = none → read_key parse db key = (Json.obj [], false)) ∧
    (lookupStoreB db key = some bs → bs ≠ "" →
      (strFind bs (String.mk [braceOpen]) != -1 &&
        strRFind bs braceClose != -1) = false →
      read_key parse db key = (Json.obj [], false)) ∧
    (lookupStoreB db key = some bs → bs ≠ "" →
      strFind bs (String.mk [braceOpen]) ≠ -1 →
      strRFind bs braceClose ≠ -1 →
      parse (pySliceStr bs (strFind bs (String.mk [braceOpen]))
        (strRFind bs braceClose + 1)) = none →
      read_key parse db key = (Json.obj [], true)) := by
  refine ⟨?_, ?_, ?_⟩
  · intro h1
    unfold read_key
    rw [h1]
  · intro h1 h2 h3
    simp only [read_key, h1]
    rw [if_pos (bne_iff_ne.mpr h2), if_neg]
    rw [h3]
    simp
  · intro h1 h2 h3 h4 h5
    simp only [read_key, h1]
    rw [if_pos (bne_iff_ne.mpr h2), if_pos, h5]
    simp [bne_iff_ne, h3, h4]

/-- C3 counterexample: with one sketch-specific key present for the board
and no filter, key resolution yields that sketch-specific key, not the
board-global key — the claim that only the board-global key is used is
false. -/
theorem all_keys_sketch_cex :
    all_keys c3Db demoBoard = [sketchKeyStr demoBoard demoSketchA] ∧
    sketchKeyStr demoBoard demoSketchA ≠ globalKeyStr demoBoard :=
  ⟨rfl, by decide⟩

/-- C3 (amended): with no sketch-specific keys, resolution yields exactly
the board-global key; with sketch-specific keys present and no filter,
resolution yields exactly the sketch-specific keys (one per extracted
sketch path) and the board-global key is not among them — so the
board-global document, not the sketch ones, is what goes untouched. -/
theorem all_keys_resolution (db : Store) (board : String) :
    (get_sketch db board = [] → all_keys db board = [globalKeyStr board]) ∧
    (get_sketch db board ≠ [] →
      all_keys db board
        = (get_sketch db board).map (fun sk => sketchKeyStr board sk) ∧
      globalKeyStr board ∉ all_keys db board) := by
  constructor
  · intro h
    unfold all_keys
    rw [h]
  · intro h
    have hmap : all_keys db board
        = (get_sketch db board).map (fun sk => sketchKeyStr board sk) := by
      unfold all_keys
      cases hg : get_sketch db board with
      | nil => exact absurd hg h
      | cons a t => rfl
    refine ⟨hmap, ?_⟩
    rw [hmap]
    intro hmem
    obtain ⟨sk, _, heq⟩ := List.mem_map.mp hmem
    have hlen := congrArg String.length heq
    rw [sketchKeyStr, globalKeyStr] at hlen
    simp only [String.length_append] at hlen
    have l1 : ("_file://" : String).length = 8 := by decide
    have l2 : ("\x00" : String).length = 1 := by decide
    have l3 : ("\x01" : String).length = 1 := by decide
    have l4 : ("theia:" : String).length = 6 := by decide
    have l5 : (":.arduinoIDE-configOptions-" : String).length = 27 := by decide
    have l6 : ("theia:.arduinoIDE-configOptions-" : String).length = 32 := by decide
    rw [l1, l2, l3, l4, l5, l6] at hlen
    omega

theorem isPrefixOf_append_self (l t : List Char) : l.isPrefixOf (l ++ t) = true :=
  List.isPrefixOf_iff_prefix.mpr (List.prefix_append l t)

theorem isPrefixOf_self (l : List Char) : l.isPrefixOf l = true := by
  have h := isPrefixOf_append_self l []
  rwa [List.append_nil] at h

theorem findSub_step (c : Char) (t sub : List Char) (i : Nat)
    (h : sub.isPrefixOf (c :: t) = false) :
    findSubAux (c :: t) sub i = findSubAux t sub (i + 1) := by
  conv_lhs => unfold findSubAux
  rw [h]
  rw [if_neg (by simp)]

theorem findSub_found (l t : List Char) (i : Nat) :
    findSubAux (l ++ t) l i = some i := by
  unfold findSubAux
  rw [isPrefixOf_append_self]
  simp

theorem findSub_isSome_of_prefixOf (s sub : List Char) (d i : Nat)
    (h : sub.isPrefixOf (s.drop d) = true) : (findSubAux s sub i).isSome = true := by
  induction s generalizing d i with
  | nil =>
    rw [List.drop_nil] at h
    unfold findSubAux
    rw [h]
    rfl
  | cons c t ih =>
    unfold findSubAux
    by_cases hp : sub.isPrefixOf (c :: t) = true
    · rw [if_pos hp]; rfl
    · rw [if_neg hp]
      cases d with
      | zero =>
        rw [List.drop_zero] at h
        exact absurd h hp
      | succ d' =>
        rw [List.drop_succ_cons] at h
        exact ih d' (i + 1) h

theorem sketchKeyStr_data (board sketch : String) :
    (sketchKeyStr board sketch).data
      = "_file://\x00\x01theia:".data
          ++ (sketch.data ++ ((":.arduinoIDE-configOptions-").data ++ board.data)) := by
  simp only [sketchKeyStr, String.data_append, List.append_assoc]
  rfl

theorem findSub_step_ne (c d : Char) (t ds : List Char) (i : Nat) (h : ¬(d = c)) :
    findSubAux (c :: t) (d :: ds) i = findSubAux t (d :: ds) (i + 1) := by
  apply findSub_step
  have hb : (d == c) = false := beq_eq_false_iff_ne.mpr h
  simp [List.isPrefixOf, hb]

theorem string_ne_data_ne (s : String) (h : s ≠ "") : s.data ≠ [] := by
  intro hd
  apply h
  cases s with
  | mk d => cases hd; rfl

/-- C6 (amended): for every (board, sketch) pair such that the first
occurrence of the delimiter :.arduinoIDE-configOptions-board in the
encoded key is the one the encoder appended (at offset 16 + the sketch's
length) and the sketch is nonempty, get_sketch applied to a store
containing the encoded key yields exactly the original sketch path. -/
theorem get_sketch_roundtrip (board sketch : String) (val : Json)
    (hsk : sketch ≠ "")
    (hfind : strFind (sketchKeyStr board sketch)
        (":.arduinoIDE-configOptions-" ++ board) = 16 + (sketch.length : Int)) :
    get_sketch [(sketchKeyStr board sketch, val)] board = [sketch] := by
  have hdata := sketchKeyStr_data board sketch
  have hlen0 : 0 < sketch.length := by
    have hne := string_ne_data_ne sketch hsk
    have : sketch.length = sketch.data.length := rfl
    rw [this]
    exact List.length_pos.mpr hne
  -- the iterator yields the single key
  have hiter : iterKeys [(sketchKeyStr board sketch, val)] "_file://\x00\x01theia:"
      = [sketchKeyStr board sketch] := by
    unfold iterKeys
    rw [hdata, isPrefixOf_append_self]
    rfl
  -- the first occurrence of "theia:" is at index 10
  have hsub6 : ("theia:").data = ['t', 'h', 'e', 'i', 'a', ':'] := rfl
  have hdata2 : (sketchKeyStr board sketch).data
      = '_' :: 'f' :: 'i' :: 'l' :: 'e' :: ':' :: '/' :: '/' :: '\x00' :: '\x01' ::
        (("theia:").data
          ++ (sketch.data ++ ((":.arduinoIDE-configOptions-").data ++ board.data))) := by
    rw [hdata]
    rfl
  have hstart : strFind (sketchKeyStr board sketch) "theia:" = 10 := by
    unfold strFind
    rw [hdata2, hsub6]
    rw [findSub_step_ne _ _ _ _ _ (by decide), findSub_step_ne _ _ _ _ _ (by decide),
        findSub_step_ne _ _ _ _ _ (by decide), findSub_step_ne _ _ _ _ _ (by decide),
        findSub_step_ne _ _ _ _ _ (by decide), findSub_step_ne _ _ _ _ _ (by decide),
        findSub_step_ne _ _ _ _ _ (by decide), findSub_step_ne _ _ _ _ _ (by decide),
        findSub_step_ne _ _ _ _ _ (by decide), findSub_step_ne _ _ _ _ _ (by decide)]
    rw [← hsub6, findSub_found]
    rfl
  -- containment of the board suffix
  have hcont : containsStr (sketchKeyStr board sketch)
      (".arduinoIDE-configOptions-" ++ board) = true := by
    unfold containsStr
    have hsplit : (sketchKeyStr board sketch).data
        = ("_file://\x00\x01theia:".data ++ (sketch.data ++ [':']))
            ++ ((".arduinoIDE-configOptions-").data ++ board.data) := by
      rw [hdata]
      have hc : (":.arduinoIDE-configOptions-").data
          = ':' :: (".arduinoIDE-configOptions-").data := rfl
      rw [hc]
      simp [List.append_assoc]
    apply findSub_isSome_of_prefixOf _ _
      ("_file://\x00\x01theia:".data ++ (sketch.data ++ [':'])).length
    rw [hsplit, String.data_append, List.drop_left]
    exact isPrefixOf_self _
  -- slice equals the sketch
  have hslice : pySliceStr (sketchKeyStr board sketch) ((10 : Int) + 6)
      (16 + (sketch.length : Int)) = sketch := by
    unfold pySliceStr
    have t1 : ((10 : Int) + 6).toNat = 16 := rfl
    have t2 : ((16 : Int) + (sketch.length : Int)).toNat = 16 + sketch.length := by
      omega
    rw [t1, t2]
    have hdrop : ((sketchKeyStr board sketch).data.drop 16)
        = sketch.data ++ ((":.arduinoIDE-configOptions-").data ++ board.data) := by
      rw [hdata]
      have hP : ("_file://\x00\x01theia:".data).length = 16 := rfl
      rw [← hP, List.drop_left]
    rw [hdrop]
    have hx : 16 + sketch.length - 16 = sketch.data.length := by
      have hy : sketch.length = sketch.data.length := rfl
      omega
    rw [hx, List.take_left]
  -- the boolean guard holds
  have g2 : ((16 + (sketch.length : Int)) != -1) = true := by
    apply bne_iff_ne.mpr
    omega
  have g3 : decide ((10 : Int) + 6 < 16 + (sketch.length : Int)) = true := by
    apply decide_eq_true
    omega
  have hc : (((10 : Int) + 6 != -1) && ((16 + (sketch.length : Int)) != -1)
      && decide ((10 : Int) + 6 < 16 + (sketch.length : Int))) = true := by
    rw [g2, g3]
    rfl
  -- assemble
  unfold get_sketch
  rw [hiter]
  unfold get_sketch_aux
  rw [hcont]
  rw [if_pos rfl]
  rw [hstart, hfind]
  rw [if_pos hc]
  rw [hslice]
  rfl

/-- C6 counterexample: for board b and the sketch path
x:.arduinoIDE-configOptions-b:y, whose text contains the key delimiter,
extraction returns x, not the original sketch path — the round trip fails
without the amendment's first-occurrence condition. -/
theorem get_sketch_roundtrip_cex :
    get_sketch [(sketchKeyStr "b" badSketch, Json.null)] "b" = ["x"] ∧
    ("x" : String) ≠ badSketch :=
  ⟨rfl, by decide⟩

/-- Witness for C6's amended theorem at a realistic pair. -/
theorem get_sketch_roundtrip_witness :
    get_sketch [(sketchKeyStr demoBoard demoSketchA, Json.null)] demoBoard
      = [demoSketchA] :=
  get_sketch_roundtrip demoBoard demoSketchA Json.null (by decide) (by decide)

theorem matchesSketchPattern_iff (path f : String) :
    matchesSketchPattern path f = true ↔
      ∃ M : List Char, path.data = "file:///".data ++ (M ++ ('/' :: f.data)) := by
  unfold matchesSketchPattern
  rw [Bool.and_eq_true, List.isPrefixOf_iff_prefix, List.isSuffixOf_iff_suffix]
  have hsl : ("/" ++ f).data = '/' :: f.data := by
    rw [String.data_append]
    rfl
  have h8 : ("file:///".data).length = 8 := rfl
  constructor
  · rintro ⟨⟨R, hR⟩, ⟨T, hT⟩⟩
    refine ⟨T, ?_⟩
    rw [← hR, ← h8, List.drop_left] at hT
    rw [← hR, ← hT, hsl]
  · rintro ⟨M, hM⟩
    constructor
    · exact ⟨M ++ ('/' :: f.data), hM.symm⟩
    · refine ⟨M, ?_⟩
      rw [hM, ← h8, List.drop_left, hsl]

theorem matching_keys_eq_filter (keys : List String) (board f : String) :
    matching_keys keys board f
      = keys.filter (fun k =>
          (("_file://\x00\x01theia").data.isPrefixOf k.data
            && ((".arduinoIDE-configOptions-" ++ board)).data.isSuffixOf k.data)
          && matchesSketchPattern (extract_sketch_path k board) f) := by
  induction keys with
  | nil => rfl
  | cons k rest ih =>
    simp only [matching_keys, List.filter]
    by_cases h1 : (("_file://\x00\x01theia").data.isPrefixOf k.data
        && ((".arduinoIDE-configOptions-" ++ board)).data.isSuffixOf k.data) = true
    · rw [h1]
      by_cases h2 : matchesSketchPattern (extract_sketch_path k board) f = true
      · rw [h2, ih]
        rfl
      · rw [Bool.not_eq_true] at h2
        rw [h2, ih]
        rfl
    · rw [Bool.not_eq_true] at h1
      rw [h1, ih]
      rfl

/-- C7: with a sketch filter given, key resolution keeps exactly the
candidate keys of the expected shape whose extracted sketch path is a
file:/// path ending in /filter (the filter anchored as the final path
segment); in particular, with sketch keys for ProjA and ProjB present,
filter ProjA selects exactly the one key ending in /ProjA. -/
theorem matching_keys_characterization :
    (∀ (keys : List String) (board f key : String),
      key ∈ matching_keys keys board f ↔
        key ∈ keys ∧
        ("_file://\x00\x01theia").data.isPrefixOf key.data = true ∧
        ((".arduinoIDE-configOptions-" ++ board)).data.isSuffixOf key.data = true ∧
        ∃ M : List Char, (extract_sketch_path key board).data
          = "file:///".data ++ (M ++ ('/' :: f.data))) ∧
    matching_keys [projKeyA, projKeyB] demoBoard "ProjA" = [projKeyA] := by
  constructor
  · intro keys board f key
    rw [matching_keys_eq_filter, List.mem_filter]
    rw [Bool.and_eq_true, Bool.and_eq_true]
    rw [matchesSketchPattern_iff]
    tauto
  · rfl

theorem lookupField_setField_self (fs : List (String × Json)) (k : String) (v : Json) :
    lookupField (setField fs k v) k = some v := by
  induction fs with
  | nil => simp [setField, lookupField]
  | cons kv rest ih =>
    obtain ⟨k', v'⟩ := kv
    by_cases h : k' = k
    · simp [setField, lookupField, h]
    · simp [setField, lookupField, h, ih]

theorem lookupField_setField_ne (fs : List (String × Json)) (k k' : String) (v : Json)
    (h : k' ≠ k) : lookupField (setField fs k v) k' = lookupField fs k' := by
  induction fs with
  | nil => simp [setField, lookupField, Ne.symm h]
  | cons kv rest ih =>
    obtain ⟨k0, v0⟩ := kv
    by_cases h0 : k0 = k
    · subst h0
      simp [setField, lookupField, show ¬ k0 = k' from fun hh => h hh.symm]
    · simp only [setField, if_neg h0, lookupField]
      by_cases h1 : k0 = k'
      · simp [h1]
      · simp [h1, ih]

theorem keyMem_false_lookup (fs : List (String × Json)) (k : String)
    (h : keyMem k fs = false) : lookupField fs k = none := by
  induction fs with
  | nil => rfl
  | cons kv rest ih =>
    obtain ⟨k0, v0⟩ := kv
    by_cases h0 : k0 = k
    · simp [keyMem, h0] at h
    · simp only [keyMem, if_neg h0] at h
      simp [lookupField, h0, ih h]

theorem keyMem_setField_ne (fs : List (String × Json)) (k k0 : String) (v : Json)
    (h : k0 ≠ k) : keyMem k0 (setField fs k v) = keyMem k0 fs := by
  induction fs with
  | nil => simp [setField, keyMem, Ne.symm h]
  | cons kv rest ih =>
    obtain ⟨k1, v1⟩ := kv
    by_cases h1 : k1 = k
    · subst h1
      simp [setField, keyMem]
    · simp only [setField, if_neg h1, keyMem]
      by_cases h2 : k1 = k0
      · simp [h2]
      · simp [h2, ih]

theorem noDupKeys_setField (fs : List (String × Json)) (k : String) (v : Json)
    (h : noDupKeys fs = true) : noDupKeys (setField fs k v) = true := by
  induction fs with
  | nil => rfl
  | cons kv rest ih =>
    obtain ⟨k0, v0⟩ := kv
    simp only [noDupKeys, Bool.and_eq_true, Bool.not_eq_true'] at h
    by_cases h0 : k0 = k
    · subst h0
      simp only [setField, if_pos rfl, noDupKeys, Bool.and_eq_true, Bool.not_eq_true']
      exact h
    · simp only [setField, if_neg h0, noDupKeys, Bool.and_eq_true, Bool.not_eq_true']
      refine ⟨?_, ih h.2⟩
      rw [keyMem_setField_ne rest k k0 v h0]
      exact h.1

theorem lookupField_updFields (os fs : List (String × Json)) (k : String)
    (hnd : noDupKeys os = true) :
    lookupField (updFields fs os) k = (lookupField os k).or (lookupField fs k) := by
  induction os generalizing fs with
  | nil => simp [updFields, lookupField, Option.or]
  | cons kv rest ih =>
    obtain ⟨k0, v0⟩ := kv
    simp only [noDupKeys, Bool.and_eq_true, Bool.not_eq_true'] at hnd
    have hstep : updFields fs ((k0, v0) :: rest) = updFields (setField fs k0 v0) rest := rfl
    rw [hstep, ih (setField fs k0 v0) hnd.2]
    by_cases h0 : k0 = k
    · subst h0
      rw [keyMem_false_lookup rest k0 hnd.1]
      simp [lookupField, lookupField_setField_self, Option.or]
    · simp only [lookupField, if_neg h0]
      rw [lookupField_setField_ne fs k0 k v0 (fun hh => h0 hh.symm)]

theorem setField_ne_nil (fs : List (String × Json)) (k : String) (v : Json) :
    setField fs k v ≠ [] := by
  cases fs with
  | nil => simp [setField]
  | cons kv rest =>
    obtain ⟨k0, v0⟩ := kv
    by_cases h : k0 = k
    · simp [setField, h]
    · simp [setField, h]

theorem lookupStore_storeSet_self (db : Store) (k : String) (d : Json) :
    lookupStore (storeSet db k d) k = some d := by
  induction db with
  | nil => simp [storeSet, lookupStore]
  | cons kv rest ih =>
    obtain ⟨k', v'⟩ := kv
    by_cases h : k' = k
    · simp [storeSet, lookupStore, h]
    · simp [storeSet, lookupStore, h, ih]

theorem clearSelected_ok (l : List Json) (cs : List Json)
    (h : clearSelected l = Except.ok cs) :
    cs.length = l.length ∧
    ∀ (i : Nat) (x : Json), l[i]? = some x → ∃ fs, x = Json.obj fs ∧
      cs[i]? = some (Json.obj (setField fs "selected" (Json.bool false))) := by
  induction l generalizing cs with
  | nil =>
    simp only [clearSelected] at h
    cases Except.ok.inj h
    refine ⟨rfl, ?_⟩
    intro i x hx
    simp at hx
  | cons a t ih =>
    cases a with
    | obj fs =>
      simp only [clearSelected, setItem, ok_bind] at h
      cases hre : clearSelected t with
      | error e => rw [hre, error_bind] at h; exact Except.noConfusion h
      | ok rest' =>
        rw [hre, ok_bind] at h
        cases Except.ok.inj h
        obtain ⟨ihlen, ihget⟩ := ih rest' hre
        refine ⟨by simp [ihlen], ?_⟩
        intro i x hx
        cases i with
        | zero =>
          simp only [List.getElem?_cons_zero] at hx
          cases Option.some.inj hx
          exact ⟨fs, rfl, by simp⟩
        | succ i' =>
          simp only [List.getElem?_cons_succ] at hx ⊢
          exact ihget i' x hx
    | null =>
      simp only [clearSelected, setItem, error_bind] at h
      exact Except.noConfusion h
    | bool b =>
      simp only [clearSelected, setItem, error_bind] at h
      exact Except.noConfusion h
    | num n =>
      simp only [clearSelected, setItem, error_bind] at h
      exact Except.noConfusion h
    | str s =>
      simp only [clearSelected, setItem, error_bind] at h
      exact Except.noConfusion h
    | arr xs =>
      simp only [clearSelected, setItem, error_bind] at h
      exact Except.noConfusion h

theorem pyGet_ok (j : Json) (k : String) (y : Option Json)
    (h : pyGet j k = Except.ok y) :
    ∃ fs, j = Json.obj fs ∧ y = lookupField fs k := by
  cases j with
  | obj fs => exact ⟨fs, rfl, (Except.ok.inj h).symm⟩
  | null => simp [pyGet] at h
  | bool b => simp [pyGet] at h
  | num n => simp [pyGet] at h
  | str s => simp [pyGet] at h
  | arr xs => simp [pyGet] at h

theorem insertValue_ok_false (cs : List Json) (v : String) (upd : Json)
    (nw0 : Option Bool) (res : List Json × Option Bool)
    (h : insertValue cs v upd nw0 = Except.ok res) (hnw : res.2 = some false) :
    (cs = [] ∧ res.1 = [] ∧ nw0 = some false) ∨
    ∃ (j : Nat) (fsj ufs : List (String × Json)),
      cs[j]? = some (Json.obj fsj) ∧
      isStrEq (lookupField fsj "value") v = true ∧
      upd = Json.obj ufs ∧
      (∀ (i : Nat) (x : Json), i < j → cs[i]? = some x →
        ∃ fsi, x = Json.obj fsi ∧ isStrEq (lookupField fsi "value") v = false) ∧
      res.1 = cs.set j (Json.obj (updFields fsj ufs)) := by
  induction cs generalizing nw0 res with
  | nil =>
    simp only [insertValue] at h
    cases Except.ok.inj h
    exact Or.inl ⟨rfl, rfl, hnw⟩
  | cons vi rest ih =>
    cases hget : pyGet vi "value" with
    | error e =>
      simp only [insertValue] at h
      rw [hget, error_bind] at h
      exact Except.noConfusion h
    | ok x =>
      obtain ⟨fsi, hvi, hx⟩ := pyGet_ok vi "value" x hget
      simp only [insertValue] at h
      rw [hget, ok_bind] at h
      by_cases hm : isStrEq x v = true
      · rw [hm, if_pos rfl] at h
        cases upd with
        | obj ufs =>
          rw [hvi] at h
          simp only [pyUpdate, ok_bind] at h
          cases Except.ok.inj h
          refine Or.inr ⟨0, fsi, ufs, ?_, ?_, rfl, ?_, ?_⟩
          · rw [hvi]; simp
          · rw [← hx]; exact hm
          · intro i x' hi hx'
            exact absurd hi (Nat.not_lt_zero i)
          · rfl
        | null =>
          cases Except.ok.inj h
          simp at hnw
        | bool b =>
          cases Except.ok.inj h
          simp at hnw
        | num n =>
          cases Except.ok.inj h
          simp at hnw
        | str s =>
          cases Except.ok.inj h
          simp at hnw
        | arr xs =>
          cases Except.ok.inj h
          simp at hnw
      · rw [Bool.not_eq_true] at hm
        rw [hm] at h
        simp only [Bool.false_eq_true, if_false] at h
        cases hrec : insertValue rest v upd (some true) with
        | error e => rw [hrec, error_bind] at h; exact Except.noConfusion h
        | ok r =>
          rw [hrec, ok_bind] at h
          cases Except.ok.inj h
          simp only at hnw
          rcases ih (some true) r hrec hnw with ⟨_, _, hcontra⟩ | hmain
          · exact absurd (Option.some.inj hcontra) (by simp)
          · obtain ⟨j, fsj, ufs, hj, hjm, hupd, hpre, hset⟩ := hmain
            refine Or.inr ⟨j + 1, fsj, ufs, ?_, hjm, hupd, ?_, ?_⟩
            · simp only [List.getElem?_cons_succ]
              exact hj
            · intro i x' hi hx'
              cases i with
              | zero =>
                simp only [List.getElem?_cons_zero] at hx'
                cases Option.some.inj hx'
                exact ⟨fsi, hvi, by rw [← hx]; exact hm⟩
              | succ i' =>
                simp only [List.getElem?_cons_succ] at hx'
                exact hpre i' x' (Nat.lt_of_succ_lt_succ hi) hx'
            · simp only [List.set_cons_succ]
              rw [hset]

theorem spliceOption_ok_false (items : List Json) (o : String) (newOpt : Json)
    (nw0 : Option Bool) (res : List Json × Option Bool)
    (h : spliceOption items o newOpt nw0 = Except.ok res) (hnw : res.2 = some false) :
    (items = [] ∧ res.1 = [] ∧ nw0 = some false) ∨
    ∃ (j : Nat) (fsj nfs : List (String × Json)),
      items[j]? = some (Json.obj fsj) ∧
      isStrEq (lookupField fsj "option") o = true ∧
      newOpt = Json.obj nfs ∧
      (∀ (i : Nat) (x : Json), i < j → items[i]? = some x →
        ∃ fsi, x = Json.obj fsi ∧ isStrEq (lookupField fsi "option") o = false) ∧
      res.1 = items.set j (Json.obj (updFields fsj nfs)) := by
  induction items generalizing nw0 res with
  | nil =>
    simp only [spliceOption] at h
    cases Except.ok.inj h
    exact Or.inl ⟨rfl, rfl, hnw⟩
  | cons vi rest ih =>
    cases hget : pyGet vi "option" with
    | error e =>
      simp only [spliceOption] at h
      rw [hget, error_bind] at h
      exact Except.noConfusion h
    | ok x =>
      obtain ⟨fsi, hvi, hx⟩ := pyGet_ok vi "option" x hget
      simp only [spliceOption] at h
      rw [hget, ok_bind] at h
      by_cases hm : isStrEq x o = true
      · rw [hm, if_pos rfl] at h
        cases newOpt with
        | obj nfs =>
          rw [hvi] at h
          simp only [pyUpdate, ok_bind] at h
          cases Except.ok.inj h
          refine Or.inr ⟨0, fsi, nfs, ?_, ?_, rfl, ?_, ?_⟩
          · rw [hvi]; simp
          · rw [← hx]; exact hm
          · intro i x' hi hx'
            exact absurd hi (Nat.not_lt_zero i)
          · rfl
        | null =>
          rw [hvi] at h
          simp only [pyUpdate, error_bind] at h
          exact Except.noConfusion h
        | bool b =>
          rw [hvi] at h
          simp only [pyUpdate, error_bind] at h
          exact Except.noConfusion h
        | num n =>
          rw [hvi] at h
          simp only [pyUpdate, error_bind] at h
          exact Except.noConfusion h
        | str s =>
          rw [hvi] at h
          simp only [pyUpdate, error_bind] at h
          exact Except.noConfusion h
        | arr xs =>
          rw [hvi] at h
          simp only [pyUpdate, error_bind] at h
          exact Except.noConfusion h
      · rw [Bool.not_eq_true] at hm
        rw [hm] at h
        simp only [Bool.false_eq_true, if_false] at h
        cases hrec : spliceOption rest o newOpt (some true) with
        | error e => rw [hrec, error_bind] at h; exact Except.noConfusion h
        | ok r =>
          rw [hrec, ok_bind] at h
          cases Except.ok.inj h
          simp only at hnw
          rcases ih (some true) r hrec hnw with ⟨_, _, hcontra⟩ | hmain
          · exact absurd (Option.some.inj hcontra) (by simp)
          · obtain ⟨j, fsj, nfs, hj, hjm, hupd, hpre, hset⟩ := hmain
            refine Or.inr ⟨j + 1, fsj, nfs, ?_, hjm, hupd, ?_, ?_⟩
            · simp only [List.getElem?_cons_succ]
              exact hj
            · intro i x' hi hx'
              cases i with
              | zero =>
                simp only [List.getElem?_cons_zero] at hx'
                cases Option.some.inj hx'
                exact ⟨fsi, hvi, by rw [← hx]; exact hm⟩
              | succ i' =>
                simp only [List.getElem?_cons_succ] at hx'
                exact hpre i' x' (Nat.lt_of_succ_lt_succ hi) hx'
            · simp only [List.set_cons_succ]
              rw [hset]

theorem filterOptions_ok_nil (items : List Json) (o : String)
    (h : filterOptions items o = Except.ok []) :
    ∀ (i : Nat) (x : Json), items[i]? = some x →
      ∃ fs, x = Json.obj fs ∧ isStrEq (lookupField fs "option") o = false := by
  induction items with
  | nil =>
    intro i x hx
    simp at hx
  | cons a t ih =>
    intro i x hx
    cases hget : pyGet a "option" with
    | error e =>
      simp only [filterOptions] at h
      rw [hget, error_bind] at h
      exact Except.noConfusion h
    | ok y =>
      obtain ⟨fsa, ha, hy⟩ := pyGet_ok a "option" y hget
      simp only [filterOptions] at h
      rw [hget, ok_bind] at h
      cases hrest : filterOptions t o with
      | error e => rw [hrest, error_bind] at h; exact Except.noConfusion h
      | ok r =>
        rw [hrest, ok_bind] at h
        by_cases hm : isStrEq y o = true
        · rw [hm, if_pos rfl] at h
          exact absurd (Except.ok.inj h) (by simp)
        · rw [Bool.not_eq_true] at hm
          rw [hm] at h
          simp only [Bool.false_eq_true, if_false] at h
          cases Except.ok.inj h
          cases i with
          | zero =>
            simp only [List.getElem?_cons_zero] at hx
            cases Option.some.inj hx
            exact ⟨fsa, ha, by rw [← hy]; exact hm⟩
          | succ i' =>
            simp only [List.getElem?_cons_succ] at hx
            exact ih hrest i' x hx

theorem filterOptions_ok_singleton (items : List Json) (o : String) (opt : Json)
    (h : filterOptions items o = Except.ok [opt]) :
    ∃ (j : Nat) (fso : List (String × Json)),
      items[j]? = some (Json.obj fso) ∧ opt = Json.obj fso ∧
      isStrEq (lookupField fso "option") o = true ∧
      ∀ (i : Nat) (x : Json), i ≠ j → items[i]? = some x →
        ∃ fsx, x = Json.obj fsx ∧ isStrEq (lookupField fsx "option") o = false := by
  induction items with
  | nil =>
    simp only [filterOptions] at h
    exact absurd (Except.ok.inj h) (by simp)
  | cons a t ih =>
    cases hget : pyGet a "option" with
    | error e =>
      simp only [filterOptions] at h
      rw [hget, error_bind] at h
      exact Except.noConfusion h
    | ok y =>
      obtain ⟨fsa, ha, hy⟩ := pyGet_ok a "option" y hget
      simp only [filterOptions] at h
      rw [hget, ok_bind] at h
      cases hrest : filterOptions t o with
      | error e => rw [hrest, error_bind] at h; exact Except.noConfusion h
      | ok r =>
        rw [hrest, ok_bind] at h
        by_cases hm : isStrEq y o = true
        · rw [hm, if_pos rfl] at h
          have hinj := Except.ok.inj h
          have hae : a = opt := (List.cons.inj hinj).1
          have hre : r = [] := (List.cons.inj hinj).2
          subst hre
          refine ⟨0, fsa, ?_, ?_, ?_, ?_⟩
          · rw [ha]; simp
          · rw [← hae, ha]
          · rw [← hy]; exact hm
          · intro i x hi hx
            cases i with
            | zero => exact absurd rfl hi
            | succ i' =>
              simp only [List.getElem?_cons_succ] at hx
              exact filterOptions_ok_nil t o hrest i' x hx
        · rw [Bool.not_eq_true] at hm
          rw [hm] at h
          simp only [Bool.false_eq_true, if_false] at h
          cases Except.ok.inj h
          obtain ⟨j, fso, hj, hopt, hjm, hother⟩ := ih hrest
          refine ⟨j + 1, fso, ?_, hopt, hjm, ?_⟩
          · simp only [List.getElem?_cons_succ]
            exact hj
          · intro i x hi hx
            cases i with
            | zero =>
              simp only [List.getElem?_cons_zero] at hx
              cases Option.some.inj hx
              exact ⟨fsa, ha, by rw [← hy]; exact hm⟩
            | succ i' =>
              simp only [List.getElem?_cons_succ] at hx
              exact hother i' x (fun he => hi (by rw [he])) hx

theorem filterOptions_nil_of_all_false (t : List Json) (o : String)
    (hall : ∀ (i : Nat) (x : Json), t[i]? = some x →
      ∃ fsx, x = Json.obj fsx ∧ isStrEq (lookupField fsx "option") o = false) :
    filterOptions t o = Except.ok [] := by
  induction t with
  | nil => rfl
  | cons a t' ih =>
    obtain ⟨fsa, ha, hm⟩ := hall 0 a (by simp)
    have hrest : filterOptions t' o = Except.ok [] := by
      apply ih
      intro i x hx
      exact hall (i + 1) x (by simpa using hx)
    simp only [filterOptions]
    rw [ha]
    simp only [pyGet, ok_bind]
    rw [hrest, ok_bind, hm]
    simp

theorem filterOptions_set_singleton (items : List Json) (o : String) (j : Nat)
    (fso ufs : List (String × Json))
    (hj : items[j]? = some (Json.obj fso))
    (hother : ∀ (i : Nat) (x : Json), i ≠ j → items[i]? = some x →
        ∃ fsx, x = Json.obj fsx ∧ isStrEq (lookupField fsx "option") o = false)
    (hum : isStrEq (lookupField ufs "option") o = true) :
    filterOptions (items.set j (Json.obj ufs)) o = Except.ok [Json.obj ufs] := by
  induction items generalizing j with
  | nil => simp at hj
  | cons a t ih =>
    cases j with
    | zero =>
      simp only [List.getElem?_cons_zero] at hj
      have hrest : filterOptions t o = Except.ok [] := by
        apply filterOptions_nil_of_all_false
        intro i x hx
        exact hother (i + 1) x (by simp) (by simpa using hx)
      simp only [List.set_cons_zero, filterOptions, pyGet, ok_bind]
      rw [hrest, ok_bind, hum]
      simp
    | succ j' =>
      simp only [List.getElem?_cons_succ] at hj
      obtain ⟨fsa, ha, hm⟩ := hother 0 a (by simp) (by simp)
      have hrest : filterOptions (t.set j' (Json.obj ufs)) o = Except.ok [Json.obj ufs] := by
        apply ih j' hj
        intro i x hi hx
        exact hother (i + 1) x (by simpa using hi) (by simpa using hx)
      simp only [List.set_cons_succ, filterOptions]
      rw [ha]
      simp only [pyGet, ok_bind]
      rw [hrest, ok_bind, hm]
      simp

theorem collectValuesIn_ok_mem (vals : List Json) (v : String) (l : List Json)
    (h : collectValuesIn vals v = Except.ok l) :
    ∀ x ∈ l, x ∈ vals ∧ ∃ fs, x = Json.obj fs ∧
      isStrEq (lookupField fs "value") v = true := by
  induction vals generalizing l with
  | nil =>
    simp only [collectValuesIn] at h
    cases Except.ok.inj h
    intro x hx
    simp at hx
  | cons a t ih =>
    cases hget : pyGet a "value" with
    | error e =>
      simp only [collectValuesIn] at h
      rw [hget, error_bind] at h
      exact Except.noConfusion h
    | ok y =>
      obtain ⟨fsa, ha, hy⟩ := pyGet_ok a "value" y hget
      simp only [collectValuesIn] at h
      rw [hget, ok_bind] at h
      cases hrest : collectValuesIn t v with
      | error e => rw [hrest, error_bind] at h; exact Except.noConfusion h
      | ok r =>
        rw [hrest, ok_bind] at h
        by_cases hm : isStrEq y v = true
        · rw [hm, if_pos rfl] at h
          cases Except.ok.inj h
          intro x hx
          rcases List.mem_cons.mp hx with hx0 | hxr
          · refine ⟨?_, fsa, ?_, ?_⟩
            · rw [hx0]; exact List.mem_cons_self a t
            · rw [hx0]; exact ha
            · rw [← hy]; exact hm
          · obtain ⟨hmem, hrest2⟩ := ih r hrest x hxr
            exact ⟨List.mem_cons_of_mem a hmem, hrest2⟩
        · rw [Bool.not_eq_true] at hm
          rw [hm] at h
          simp only [Bool.false_eq_true, if_false] at h
          cases Except.ok.inj h
          intro x hx
          obtain ⟨hmem, hrest2⟩ := ih l hrest x hx
          exact ⟨List.mem_cons_of_mem a hmem, hrest2⟩

theorem collectValues_ok_mem (options : List Json) (v : String) (l : List Json)
    (h : collectValues options v = Except.ok l) :
    ∀ x ∈ l, ∃ fs, x = Json.obj fs ∧
      isStrEq (lookupField fs "value") v = true := by
  induction options generalizing l with
  | nil =>
    simp only [collectValues] at h
    cases Except.ok.inj h
    intro x hx
    simp at hx
  | cons a t ih =>
    simp only [collectValues] at h
    cases hgd : pyGetD a "values" (Json.arr []) with
    | error e => rw [hgd, error_bind] at h; exact Except.noConfusion h
    | ok vals =>
      rw [hgd, ok_bind] at h
      cases hit : pyIter vals with
      | error e => rw [hit, error_bind] at h; exact Except.noConfusion h
      | ok valsL =>
        rw [hit, ok_bind] at h
        cases hin : collectValuesIn valsL v with
        | error e => rw [hin, error_bind] at h; exact Except.noConfusion h
        | ok here =>
          rw [hin, ok_bind] at h
          cases hrest : collectValues t v with
          | error e => rw [hrest, error_bind] at h; exact Except.noConfusion h
          | ok there =>
            rw [hrest, ok_bind] at h
            cases Except.ok.inj h
            intro x hx
            rcases List.mem_append.mp hx with hx1 | hx2
            · exact (collectValuesIn_ok_mem valsL v here hin x hx1).2
            · exact ih there hrest x hx2

theorem read_property_ok_inv (db : Store) (key p : String) (jprop : Json)
    (h : read_property db key p = Except.ok jprop) (ht : jprop.isTruthy = true) :
    ∃ dataFs, read_key_doc db key = Json.obj dataFs ∧
      (Json.obj dataFs).isTruthy = true ∧
      lookupField dataFs p = some jprop := by
  simp only [read_property] at h
  by_cases hd : (read_key_doc db key).isTruthy = true
  · rw [if_pos hd] at h
    cases hget : pyGet (read_key_doc db key) p with
    | error e => rw [hget, error_bind] at h; exact Except.noConfusion h
    | ok props? =>
      obtain ⟨dataFs, hdata, hp⟩ := pyGet_ok _ p props? hget
      rw [hget, ok_bind] at h
      cases props? with
      | none =>
        simp only [] at h
        cases Except.ok.inj h
        simp [Json.isTruthy] at ht
      | some props =>
        simp only [] at h
        by_cases hpt : props.isTruthy = true
        · rw [hpt, if_pos rfl] at h
          cases Except.ok.inj h
          exact ⟨dataFs, hdata, by rw [← hdata]; exact hd, hp.symm⟩
        · rw [Bool.not_eq_true] at hpt
          rw [hpt] at h
          simp only [Bool.false_eq_true, if_false] at h
          cases Except.ok.inj h
          simp [Json.isTruthy] at ht
  · rw [Bool.not_eq_true] at hd
    rw [hd] at h
    simp only [Bool.false_eq_true, if_false] at h
    cases Except.ok.inj h
    simp [Json.isTruthy] at ht

theorem read_object_ok_cons (db : Store) (key p o : String) (h0 : Json) (t : List Json)
    (h : read_object db key p o = Except.ok (h0 :: t)) :
    ∃ dataFs props items,
      read_key_doc db key = Json.obj dataFs ∧
      (Json.obj dataFs).isTruthy = true ∧
      lookupField dataFs p = some props ∧
      props.isTruthy = true ∧
      pyIter props = Except.ok items ∧
      filterOptions items o = Except.ok (h0 :: t) := by
  simp only [read_object] at h
  by_cases hd : (read_key_doc db key).isTruthy = true
  · rw [if_pos hd] at h
    cases hget : pyGet (read_key_doc db key) p with
    | error e => rw [hget, error_bind] at h; exact Except.noConfusion h
    | ok props? =>
      obtain ⟨dataFs, hdata, hp⟩ := pyGet_ok _ p props? hget
      rw [hget, ok_bind] at h
      cases props? with
      | none =>
        simp only [] at h
        exact absurd (Except.ok.inj h) (by simp)
      | some props =>
        simp only [] at h
        by_cases hpt : props.isTruthy = true
        · rw [hpt, if_pos rfl] at h
          cases hit : pyIter props with
          | error e => rw [hit, error_bind] at h; exact Except.noConfusion h
          | ok items =>
            rw [hit, ok_bind] at h
            cases hfo : filterOptions items o with
            | error e => rw [hfo, error_bind] at h; exact Except.noConfusion h
            | ok options =>
              rw [hfo, ok_bind] at h
              cases options with
              | nil =>
                simp only [] at h
                exact absurd (Except.ok.inj h) (by simp)
              | cons x xs =>
                simp only [] at h
                cases Except.ok.inj h
                exact ⟨dataFs, props, items, hdata,
                  by rw [← hdata]; exact hd, hp.symm, hpt, hit, hfo⟩
        · rw [Bool.not_eq_true] at hpt
          rw [hpt] at h
          simp only [Bool.false_eq_true, if_false] at h
          exact absurd (Except.ok.inj h) (by simp)
  · rw [Bool.not_eq_true] at hd
    rw [hd] at h
    simp only [Bool.false_eq_true, if_false] at h
    exact absurd (Except.ok.inj h) (by simp)

theorem read_value_ok_cons (db : Store) (key p o v : String) (h0 : Json) (t : List Json)
    (h : read_value db key p o v = Except.ok (h0 :: t)) :
    ∃ dataFs props items options,
      read_key_doc db key = Json.obj dataFs ∧
      (Json.obj dataFs).isTruthy = true ∧
      lookupField dataFs p = some props ∧
      props.isTruthy = true ∧
      pyIter props = Except.ok items ∧
      filterOptions items o = Except.ok options ∧
      options ≠ [] ∧
      collectValues options v = Except.ok (h0 :: t) := by
  simp only [read_value] at h
  by_cases hd : (read_key_doc db key).isTruthy = true
  · rw [if_pos hd] at h
    cases hget : pyGet (read_key_doc db key) p with
    | error e => rw [hget, error_bind] at h; exact Except.noConfusion h
    | ok props? =>
      obtain ⟨dataFs, hdata, hp⟩ := pyGet_ok _ p props? hget
      rw [hget, ok_bind] at h
      cases props? with
      | none =>
        simp only [] at h
        exact absurd (Except.ok.inj h) (by simp)
      | some props =>
        simp only [] at h
        by_cases hpt : props.isTruthy = true
        · rw [hpt, if_pos rfl] at h
          cases hit : pyIter props with
          | error e => rw [hit, error_bind] at h; exact Except.noConfusion h
          | ok items =>
            rw [hit, ok_bind] at h
            cases hfo : filterOptions items o with
            | error e => rw [hfo, error_bind] at h; exact Except.noConfusion h
            | ok options =>
              rw [hfo, ok_bind] at h
              cases options with
              | nil =>
                simp only [] at h
                exact absurd (Except.ok.inj h) (by simp)
              | cons x xs =>
                simp only [] at h
                cases hcv : collectValues (x :: xs) v with
                | error e => rw [hcv, error_bind] at h; exact Except.noConfusion h
                | ok arrv =>
                  rw [hcv, ok_bind] at h
                  cases arrv with
                  | nil =>
                    simp only [] at h
                    exact absurd (Except.ok.inj h) (by simp)
                  | cons y ys =>
                    simp only [] at h
                    cases Except.ok.inj h
                    exact ⟨dataFs, props, items, x :: xs, hdata,
                      by rw [← hdata]; exact hd, hp.symm, hpt, hit, hfo,
                      by simp, hcv⟩
        · rw [Bool.not_eq_true] at hpt
          rw [hpt] at h
          simp only [Bool.false_eq_true, if_false] at h
          exact absurd (Except.ok.inj h) (by simp)
  · rw [Bool.not_eq_true] at hd
    rw [hd] at h
    simp only [Bool.false_eq_true, if_false] at h
    exact absurd (Except.ok.inj h) (by simp)

theorem markSelected_cons (x : Json) (rest : List Json) (v : String) (l' : List Json)
    (h : markSelected (x :: rest) v = Except.ok l') :
    ∃ fs rest2, x = Json.obj fs ∧ markSelected rest v = Except.ok rest2 ∧
      l' = (if isStrEq (lookupField fs "value") v then
              Json.obj (setField fs "selected" (Json.bool true))
            else Json.obj fs) :: rest2 := by
  simp only [markSelected] at h
  cases hget : pyGet x "value" with
  | error e => rw [hget, error_bind] at h; exact Except.noConfusion h
  | ok y =>
    obtain ⟨fs, hx, hy⟩ := pyGet_ok x "value" y hget
    rw [hget, ok_bind] at h
    by_cases hm : isStrEq y v = true
    · rw [hm, if_pos rfl] at h
      rw [hx] at h
      simp only [setItem, ok_bind] at h
      cases hrest : markSelected rest v with
      | error e => rw [hrest, error_bind] at h; exact Except.noConfusion h
      | ok rest2 =>
        rw [hrest, ok_bind] at h
        cases Except.ok.inj h
        refine ⟨fs, rest2, hx, rfl, ?_⟩
        rw [← hy, hm]
        simp
    · rw [Bool.not_eq_true] at hm
      rw [hm] at h
      simp only [Bool.false_eq_true, if_false, ok_bind] at h
      cases hrest : markSelected rest v with
      | error e => rw [hrest, error_bind] at h; exact Except.noConfusion h
      | ok rest2 =>
        rw [hrest, ok_bind] at h
        cases Except.ok.inj h
        refine ⟨fs, rest2, hx, rfl, ?_⟩
        rw [← hy, hm]
        simp [hx]

theorem updateOptions_cons_inv (opt : Json) (t : List Json) (o v : String) (upd : Json)
    (nw0 : Option Bool) (res : List Json × Option Bool)
    (h : updateOptions (opt :: t) o v upd nw0 = Except.ok res)
    (fso : List (String × Json)) (hopt : opt = Json.obj fso)
    (hm : isStrEq (lookupField fso "option") o = true) :
    ∃ vals valsL cleared r1 rest',
      lookupField fso "values" = some vals ∧
      pyIter vals = Except.ok valsL ∧
      clearSelected valsL = Except.ok cleared ∧
      insertValue cleared v upd nw0 = Except.ok (r1, some false) ∧
      updateOptions t o v upd (some false) = Except.ok rest' ∧
      res = (Json.obj (setField fso "values" (reconstructSeq vals r1)) :: rest'.1,
             rest'.2) := by
  simp only [updateOptions] at h
  rw [hopt] at h
  simp only [pyGet, ok_bind] at h
  rw [hm] at h
  rw [if_pos rfl] at h
  cases hv : lookupField fso "values" with
  | none =>
    simp only [getItem, hv, error_bind] at h
    exact Except.noConfusion h
  | some vals =>
    simp only [getItem, hv, ok_bind] at h
    cases hit : pyIter vals with
    | error e => rw [hit, error_bind] at h; exact Except.noConfusion h
    | ok valsL =>
      rw [hit, ok_bind] at h
      cases hcl : clearSelected valsL with
      | error e => rw [hcl, error_bind] at h; exact Except.noConfusion h
      | ok cleared =>
        rw [hcl, ok_bind] at h
        cases hins : insertValue cleared v upd nw0 with
        | error e => rw [hins, error_bind] at h; exact Except.noConfusion h
        | ok r1p =>
          rw [hins, ok_bind] at h
          obtain ⟨r1, nw1⟩ := r1p
          cases nw1 with
          | none =>
            simp only [] at h
            exact Except.noConfusion h
          | some b =>
            cases b with
            | true =>
              simp only [] at h
              exact Except.noConfusion h
            | false =>
              simp only [setItem, ok_bind] at h
              cases hrest : updateOptions t o v upd (some false) with
              | error e => rw [hrest, error_bind] at h; exact Except.noConfusion h
              | ok rest' =>
                rw [hrest, ok_bind] at h
                cases Except.ok.inj h
                exact ⟨vals, valsL, cleared, r1, rest', rfl, hit, hcl, hins, rfl, rfl⟩

theorem pyIter_clear_arr (vals : Json) (valsL cleared : List Json)
    (h1 : pyIter vals = Except.ok valsL) (h2 : clearSelected valsL = Except.ok cleared)
    (hne : valsL ≠ []) : vals = Json.arr valsL := by
  cases vals with
  | arr xs => cases Except.ok.inj h1; rfl
  | null => exact Except.noConfusion h1
  | bool b => exact Except.noConfusion h1
  | num n => exact Except.noConfusion h1
  | str s =>
    cases Except.ok.inj h1
    cases hd : s.data with
    | nil => rw [hd] at hne; simp at hne
    | cons c cs =>
      rw [hd] at h2
      simp only [List.map_cons, clearSelected, setItem, error_bind] at h2
      exact Except.noConfusion h2
  | obj fs =>
    cases Except.ok.inj h1
    cases hd : fs with
    | nil => rw [hd] at hne; simp at hne
    | cons kv rest =>
      rw [hd] at h2
      simp only [List.map_cons, clearSelected, setItem, error_bind] at h2
      exact Except.noConfusion h2

theorem write_value_ok_inv (db : Store) (key p o v : String) (d' : Json)
    (h : write_value db key p o v = Except.ok (some d')) :
    ∃ jw0 jwt jow2 jopt0 joptt r3 jprop items r4,
      read_value db key p o v = Except.ok (jw0 :: jwt) ∧
      markSelected (jw0 :: jwt) v = Except.ok jow2 ∧
      read_object db key p o = Except.ok (jopt0 :: joptt) ∧
      updateOptions (jopt0 :: joptt) o v (jow2.headD Json.null) none = Except.ok r3 ∧
      read_property db key p = Except.ok jprop ∧
      jprop.isTruthy = true ∧
      pyIter jprop = Except.ok items ∧
      spliceOption items o (r3.1.headD Json.null) r3.2 = Except.ok r4 ∧
      r4.2 = some false ∧
      (read_configOptions db key).isTruthy = true ∧
      pyContains (read_configOptions db key) p = Except.ok true ∧
      setItem (read_configOptions db key) p (reconstructSeq jprop r4.1)
        = Except.ok d' := by
  simp only [write_value] at h
  cases h1 : read_value db key p o v with
  | error e => rw [h1, error_bind] at h; exact Except.noConfusion h
  | ok jow =>
    rw [h1, ok_bind] at h
    cases jow with
    | nil =>
      simp only [] at h
      exact absurd (Except.ok.inj h) (by simp)
    | cons jw0 jwt =>
      simp only [] at h
      cases h2 : markSelected (jw0 :: jwt) v with
      | error e => rw [h2, error_bind] at h; exact Except.noConfusion h
      | ok jow2 =>
        rw [h2, ok_bind] at h
        cases h3 : read_object db key p o with
        | error e => rw [h3, error_bind] at h; exact Except.noConfusion h
        | ok jopt =>
          rw [h3, ok_bind] at h
          cases jopt with
          | nil =>
            simp only [] at h
            exact absurd (Except.ok.inj h) (by simp)
          | cons jopt0 joptt =>
            simp only [] at h
            cases h4 : updateOptions (jopt0 :: joptt) o v (jow2.headD Json.null) none with
            | error e => rw [h4, error_bind] at h; exact Except.noConfusion h
            | ok r3 =>
              rw [h4, ok_bind] at h
              cases h5 : read_property db key p with
              | error e => rw [h5, error_bind] at h; exact Except.noConfusion h
              | ok jprop =>
                rw [h5, ok_bind] at h
                by_cases h6 : jprop.isTruthy = true
                · rw [h6, if_pos rfl] at h
                  cases h7 : pyIter jprop with
                  | error e => rw [h7, error_bind] at h; exact Except.noConfusion h
                  | ok items =>
                    rw [h7, ok_bind] at h
                    cases h8 : spliceOption items o (r3.1.headD Json.null) r3.2 with
                    | error e => rw [h8, error_bind] at h; exact Except.noConfusion h
                    | ok r4 =>
                      rw [h8, ok_bind] at h
                      obtain ⟨r41, nw2⟩ := r4
                      cases nw2 with
                      | none =>
                        simp only [] at h
                        exact Except.noConfusion h
                      | some b =>
                        cases b with
                        | true =>
                          simp only [] at h
                          exact Except.noConfusion h
                        | false =>
                          simp only [] at h
                          by_cases h9 : (read_configOptions db key).isTruthy = true
                          · rw [h9, if_pos rfl] at h
                            cases h10 : pyContains (read_configOptions db key) p with
                            | error e =>
                              rw [h10, error_bind] at h
                              exact Except.noConfusion h
                            | ok mem =>
                              rw [h10, ok_bind] at h
                              cases mem with
                              | false =>
                                simp only [Bool.false_eq_true, if_false] at h
                                exact Except.noConfusion h
                              | true =>
                                simp only [if_pos rfl] at h
                                cases h11 : setItem (read_configOptions db key) p
                                    (reconstructSeq jprop r41) with
                                | error e =>
                                  rw [h11, error_bind] at h
                                  exact Except.noConfusion h
                                | ok d'' =>
                                  rw [h11, ok_bind] at h
                                  have hde : d'' = d' :=
                                    Option.some.inj (Except.ok.inj h)
                                  subst hde
                                  exact ⟨jw0, jwt, jow2, jopt0, joptt, r3, jprop,
                                    items, (r41, some false), rfl, h2, rfl, h4, rfl,
                                    h6, h7, h8, rfl, h9, rfl, h11⟩
                          · rw [Bool.not_eq_true] at h9
                            rw [h9] at h
                            simp only [Bool.false_eq_true, if_false] at h
                            exact absurd (Except.ok.inj h) (by simp)
                · rw [Bool.not_eq_true] at h6
                  rw [h6] at h
                  simp only [Bool.false_eq_true, if_false] at h
                  exact absurd (Except.ok.inj h) (by simp)

theorem isStrEqJ_eq (y : Json) (s : String) (h : isStrEqJ y s = true) :
    y = Json.str s := by
  cases y with
  | str t =>
    simp only [isStrEqJ, decide_eq_true_eq] at h
    rw [h]
  | null => simp [isStrEqJ] at h
  | bool b => simp [isStrEqJ] at h
  | num n => simp [isStrEqJ] at h
  | arr xs => simp [isStrEqJ] at h
  | obj fs => simp [isStrEqJ] at h

theorem pyIter_obj_elem_arr (jp : Json) (items : List Json) (j : Nat)
    (fso : List (String × Json)) (h : pyIter jp = Except.ok items)
    (hj : items[j]? = some (Json.obj fso)) : jp = Json.arr items := by
  cases jp with
  | arr xs => cases Except.ok.inj h; rfl
  | null => exact Except.noConfusion h
  | bool b => exact Except.noConfusion h
  | num n => exact Except.noConfusion h
  | str s =>
    cases Except.ok.inj h
    rw [List.getElem?_map] at hj
    cases hsj : s.data[j]? with
    | none => rw [hsj] at hj; exact Option.noConfusion hj
    | some c =>
      rw [hsj] at hj
      exact Json.noConfusion (Option.some.inj hj)
  | obj fs =>
    cases Except.ok.inj h
    rw [List.getElem?_map] at hj
    cases hsj : fs[j]? with
    | none => rw [hsj] at hj; exact Option.noConfusion hj
    | some kv =>
      rw [hsj] at hj
      exact Json.noConfusion (Option.some.inj hj)

theorem obj_truthy_of_ne_nil (fs : List (String × Json)) (h : fs ≠ []) :
    (Json.obj fs).isTruthy = true := by
  simp [Json.isTruthy, h]

theorem arr_truthy_of_ne_nil (xs : List Json) (h : xs ≠ []) :
    (Json.arr xs).isTruthy = true := by
  simp [Json.isTruthy, h]

theorem set_ne_nil {α : Type} (l : List α) (j : Nat) (u : α) (h : l ≠ []) :
    l.set j u ≠ [] := by
  intro hc
  apply h
  have := congrArg List.length hc
  rw [List.length_set] at this
  exact List.eq_nil_of_length_eq_zero this

theorem filter_selTrue_le_one (l : List Json) (j : Nat)
    (hother : ∀ (i : Nat) (x : Json), l[i]? = some x → i ≠ j → selTrue x = false) :
    (l.filter selTrue).length ≤ 1 := by
  induction l generalizing j with
  | nil => simp
  | cons a t ih =>
    cases j with
    | zero =>
      have htf : t.filter selTrue = [] := by
        rw [List.filter_eq_nil_iff]
        intro x hx
        obtain ⟨i, hi⟩ := List.mem_iff_getElem?.mp hx
        simp [hother (i + 1) x (by simpa using hi) (by simp)]
      by_cases ha : selTrue a = true
      · rw [List.filter_cons_of_pos ha, htf]
        simp
      · rw [Bool.not_eq_true] at ha
        rw [List.filter_cons_of_neg (by simp [ha]), htf]
        simp
    | succ j' =>
      have ha : selTrue a = false := hother 0 a (by simp) (by simp)
      rw [List.filter_cons_of_neg (by simp [ha])]
      apply ih j'
      intro i x hx hi
      exact hother (i + 1) x (by simpa using hx) (by simpa using hi)

theorem isStrEq_true_elim (x : Option Json) (s : String) (h : isStrEq x s = true) :
    x = some (Json.str s) := by
  cases x with
  | none => simp [isStrEq] at h
  | some y => rw [isStrEqJ_eq y s h]

theorem filterOptions_ok_head (items : List Json) (o : String) (h0 : Json)
    (t : List Json) (h : filterOptions items o = Except.ok (h0 :: t)) :
    ∃ (j : Nat) (fs0 : List (String × Json)),
      items[j]? = some (Json.obj fs0) ∧ h0 = Json.obj fs0 ∧
      isStrEq (lookupField fs0 "option") o = true ∧
      ∀ (i : Nat) (x : Json), i < j → items[i]? = some x →
        ∃ fsx, x = Json.obj fsx ∧ isStrEq (lookupField fsx "option") o = false := by
  induction items generalizing h0 t with
  | nil =>
    simp only [filterOptions] at h
    exact absurd (Except.ok.inj h) (by simp)
  | cons a rest ih =>
    cases hget : pyGet a "option" with
    | error e =>
      simp only [filterOptions] at h
      rw [hget, error_bind] at h
      exact Except.noConfusion h
    | ok y =>
      obtain ⟨fsa, ha, hy⟩ := pyGet_ok a "option" y hget
      simp only [filterOptions] at h
      rw [hget, ok_bind] at h
      cases hrest : filterOptions rest o with
      | error e => rw [hrest, error_bind] at h; exact Except.noConfusion h
      | ok r =>
        rw [hrest, ok_bind] at h
        by_cases hm : isStrEq y o = true
        · rw [hm, if_pos rfl] at h
          have hinj := Except.ok.inj h
          have hae : a = h0 := (List.cons.inj hinj).1
          refine ⟨0, fsa, ?_, ?_, ?_, ?_⟩
          · rw [ha]; simp
          · rw [← hae, ha]
          · rw [← hy]; exact hm
          · intro i x hi hx
            exact absurd hi (Nat.not_lt_zero i)
        · rw [Bool.not_eq_true] at hm
          rw [hm] at h
          simp only [Bool.false_eq_true, if_false] at h
          cases Except.ok.inj h
          obtain ⟨j, fs0, hj, hh0, hjm, hpre⟩ := ih h0 t hrest
          refine ⟨j + 1, fs0, ?_, hh0, hjm, ?_⟩
          · simp only [List.getElem?_cons_succ]
            exact hj
          · intro i x hi hx
            cases i with
            | zero =>
              simp only [List.getElem?_cons_zero] at hx
              cases Option.some.inj hx
              exact ⟨fsa, ha, by rw [← hy]; exact hm⟩
            | succ i' =>
              simp only [List.getElem?_cons_succ] at hx
              exact hpre i' x (Nat.lt_of_succ_lt_succ hi) hx

theorem first_match_unique (items : List Json) (o : String) (j1 j2 : Nat)
    (fs1 fs2 : List (String × Json))
    (h1 : items[j1]? = some (Json.obj fs1))
    (m1 : isStrEq (lookupField fs1 "option") o = true)
    (b1 : ∀ (i : Nat) (x : Json), i < j1 → items[i]? = some x →
      ∃ fsx, x = Json.obj fsx ∧ isStrEq (lookupField fsx "option") o = false)
    (h2 : items[j2]? = some (Json.obj fs2))
    (m2 : isStrEq (lookupField fs2 "option") o = true)
    (b2 : ∀ (i : Nat) (x : Json), i < j2 → items[i]? = some x →
      ∃ fsx, x = Json.obj fsx ∧ isStrEq (lookupField fsx "option") o = false) :
    j1 = j2 := by
  rcases Nat.lt_trichotomy j1 j2 with hlt | heq | hgt
  · obtain ⟨fsx, hfx, hfalse⟩ := b2 j1 (Json.obj fs1) hlt h1
    rw [Json.obj.inj hfx] at m1
    rw [m1] at hfalse
    exact Bool.noConfusion hfalse
  · exact heq
  · obtain ⟨fsx, hfx, hfalse⟩ := b1 j2 (Json.obj fs2) hgt h2
    rw [Json.obj.inj hfx] at m2
    rw [m2] at hfalse
    exact Bool.noConfusion hfalse

theorem selTrue_cleared (fs : List (String × Json)) :
    selTrue (Json.obj (setField fs "selected" (Json.bool false))) = false := by
  simp [selTrue, Json.get, lookupField_setField_self]

/-- C1 (amended): provided the target option name occurs on exactly one
option of the property (read_object returns a singleton) and the JSON
objects involved carry no duplicated keys (always true of documents parsed
by Python's json module), a successful write of value v leaves at most one
entry of the target option's values list with selected = true, and every
subsequent read of a different value name v2 returns entries whose
selected flag is false. -/
theorem write_value_selected_exclusive
    (db : Store) (key p o v v2 : String) (d' opt : Json) (jvals : List Json)
    (hw : write_value db key p o v = Except.ok (some d'))
    (hro : read_object db key p o = Except.ok [opt])
    (hnd : objNoDup opt = true)
    (hrv : read_value db key p o v = Except.ok jvals)
    (hvnd : ∀ x ∈ jvals, objNoDup x = true)
    (hne : v2 ≠ v) :
    (∀ l, read_object (write_key db key d') key p o = Except.ok l →
       ∀ x ∈ l, countSelected x ≤ 1) ∧
    (∀ l, read_value (write_key db key d') key p o v2 = Except.ok l →
       ∀ x ∈ l, Json.get x "selected" = some (Json.bool false)) := by
  obtain ⟨jw0, jwt, jow2, jopt0, joptt, r3, jprop, items, r4, h1, h2, h3, h4, h5,
    h6, h7, h8, h9, h10, h11, h12⟩ := write_value_ok_inv db key p o v d' hw
  -- tie the read hypotheses to the inversion
  have hjvals : jvals = jw0 :: jwt := Except.ok.inj (hrv.symm.trans h1)
  have hjopt : jopt0 = opt ∧ joptt = [] := by
    have hinj := Except.ok.inj (h3.symm.trans hro)
    exact ⟨(List.cons.inj hinj).1, (List.cons.inj hinj).2⟩
  obtain ⟨hjopt0, hjoptt⟩ := hjopt
  have hjopt0s : opt = jopt0 := hjopt0.symm
  subst hjopt0s
  subst hjoptt
  -- the written value read-side: its "value" field is the string v
  obtain ⟨dF1, props1, items1, options1, hdata1, hdt1, hlp1, hpt1, hit1, hfo1,
    hone1, hcv1⟩ := read_value_ok_cons db key p o v jw0 jwt h1
  obtain ⟨fs0, hjw0, hjw0m⟩ :=
    collectValues_ok_mem options1 v (jw0 :: jwt) hcv1 jw0 (List.mem_cons_self _ _)
  have hfs0v : lookupField fs0 "value" = some (Json.str v) :=
    isStrEq_true_elim _ v hjw0m
  have hfs0nd : noDupKeys fs0 = true := by
    have := hvnd jw0 (by rw [hjvals]; exact List.mem_cons_self _ _)
    rw [hjw0] at this
    exact this
  -- markSelected: the merged-in update dict
  obtain ⟨fs0', rest2, hjw0', hms, hjow2⟩ := markSelected_cons jw0 jwt v jow2 h2
  have hfs0e : fs0 = fs0' := Json.obj.inj (hjw0.symm.trans hjw0')
  subst hfs0e
  have hupd : jow2.headD Json.null
      = Json.obj (setField fs0 "selected" (Json.bool true)) := by
    rw [hjow2, hjw0m]
    simp
  -- read_object inversion and determinism with read_property
  obtain ⟨dF2, props2, items2, hdata2, hdt2, hlp2, hpt2, hit2, hfo2⟩ :=
    read_object_ok_cons db key p o opt [] h3
  obtain ⟨dF3, hdata3, hdt3, hlp3⟩ := read_property_ok_inv db key p jprop h5 h6
  have hdF : dF3 = dF2 := Json.obj.inj (hdata3.symm.trans hdata2)
  subst hdF
  have hprops : jprop = props2 := Option.some.inj (hlp3.symm.trans hlp2)
  subst hprops
  have hitems : items = items2 := Except.ok.inj (h7.symm.trans hit2)
  subst hitems
  -- the unique matching option
  obtain ⟨jf, fso, hjf, hopt_eq, hfm, hother⟩ :=
    filterOptions_ok_singleton items o opt hfo2
  have hfsond : noDupKeys fso = true := by
    have := hnd
    rw [hopt_eq] at this
    exact this
  -- updateOptions on the singleton
  rw [hupd] at h4
  obtain ⟨vals, valsL, cleared, r1, rest', hvv, hit3, hcl, hins, hrest', hres3⟩ :=
    updateOptions_cons_inv opt [] o v
      (Json.obj (setField fs0 "selected" (Json.bool true))) none r3 h4 fso hopt_eq hfm
  have hrest'e : rest' = (([] : List Json), some false) := by
    simp only [updateOptions] at hrest'
    exact (Except.ok.inj hrest').symm
  rw [hrest'e] at hres3
  -- insertValue structure
  rcases insertValue_ok_false cleared v (Json.obj (setField fs0 "selected" (Json.bool true)))
      none (r1, some false) hins rfl with ⟨_, _, hcontra⟩ | hmain
  · exact Option.noConfusion hcontra
  obtain ⟨jv, fscj, ufs2, hjv, hjvm, hufs2, hpre, hset1⟩ := hmain
  have hufs2e : ufs2 = setField fs0 "selected" (Json.bool true) :=
    (Json.obj.inj hufs2).symm
  subst hufs2e
  simp only [] at hset1
  -- shapes
  obtain ⟨hcllen, hclget⟩ := clearSelected_ok valsL cleared hcl
  have hclne : cleared ≠ [] := by
    intro hc
    rw [hc] at hjv
    simp at hjv
  have hvlne : valsL ≠ [] := by
    intro hc
    apply hclne
    rw [hc] at hcllen
    exact List.eq_nil_of_length_eq_zero hcllen
  have hvals : vals = Json.arr valsL := pyIter_clear_arr vals valsL cleared hit3 hcl hvlne
  rw [hvals] at hres3
  simp only [reconstructSeq] at hres3
  -- the updated option and its field lookups
  have hnfsnd : noDupKeys (setField fso "values" (Json.arr r1)) = true :=
    noDupKeys_setField fso "values" (Json.arr r1) hfsond
  have hr31 : r3.1 = [Json.obj (setField fso "values" (Json.arr r1))] := by
    rw [hres3]
  have hr32 : r3.2 = some false := by
    rw [hres3]
  rw [hr31, hr32] at h8
  simp only [List.headD] at h8
  -- spliceOption structure
  rcases spliceOption_ok_false items o (Json.obj (setField fso "values" (Json.arr r1)))
      (some false) r4 h8 h9 with ⟨hitems_nil, _, _⟩ | hsmain
  · rw [hitems_nil] at hjf
    simp at hjf
  obtain ⟨js, fsj, nfs2, hjs, hjsm, hnfs2, hspre, hset2⟩ := hsmain
  have hnfs2e : nfs2 = setField fso "values" (Json.arr r1) := (Json.obj.inj hnfs2).symm
  subst hnfs2e
  have hjse : jf = js := by
    by_contra hc
    obtain ⟨fsx, hfx, hfalse⟩ := hother js (Json.obj fsj) (fun he => hc he.symm) hjs
    rw [Json.obj.inj hfx] at hjsm
    rw [hjsm] at hfalse
    exact Bool.noConfusion hfalse
  subst hjse
  have hfsje : fso = fsj := Json.obj.inj (Option.some.inj (hjf.symm.trans hjs))
  subst hfsje
  -- lookups on the updated option
  have hu_opt : isStrEq (lookupField
      (updFields fso (setField fso "values" (Json.arr r1))) "option") o = true := by
    rw [lookupField_updFields _ _ "option" hnfsnd]
    rw [lookupField_setField_ne fso "values" "option" (Json.arr r1) (by decide)]
    cases hlo : lookupField fso "option" with
    | none => rw [hlo] at hfm; simp [isStrEq] at hfm
    | some yo =>
      rw [hlo] at hfm
      simp [Option.or, hfm]
  have hu_vals : lookupField
      (updFields fso (setField fso "values" (Json.arr r1))) "values"
        = some (Json.arr r1) := by
    rw [lookupField_updFields _ _ "values" hnfsnd]
    rw [lookupField_setField_self]
    rfl
  -- the new document
  have hjpa : jprop = Json.arr items := pyIter_obj_elem_arr jprop items jf fso h7 hjf
  have hrc : read_configOptions db key = Json.obj dF3 := by
    simp only [read_configOptions]
    rw [hdata3]
    rw [if_pos hdt3]
  rw [hrc, hjpa] at h12
  have hr41 : r4.1 = items.set jf
      (Json.obj (updFields fso (setField fso "values" (Json.arr r1)))) := hset2
  rw [hr41] at h12
  simp only [reconstructSeq, setItem] at h12
  have hd' : d' = Json.obj (setField dF3 p
      (Json.arr (items.set jf
        (Json.obj (updFields fso (setField fso "values" (Json.arr r1))))))) :=
    (Except.ok.inj h12).symm
  -- reading the new store
  have hnewdoc : read_key_doc (write_key db key d') key = d' := by
    simp only [read_key_doc, write_key]
    rw [lookupStore_storeSet_self]
  have hitemsne : items ≠ [] := by
    intro hc
    rw [hc] at hjf
    simp at hjf
  have hdnewt : d'.isTruthy = true := by
    rw [hd']
    exact obj_truthy_of_ne_nil _ (setField_ne_nil _ _ _)
  have hpgnew : pyGet d' p = Except.ok (some (Json.arr (items.set jf
      (Json.obj (updFields fso (setField fso "values" (Json.arr r1))))))) := by
    rw [hd']
    simp [pyGet, lookupField_setField_self]
  have hat : (Json.arr (items.set jf
      (Json.obj (updFields fso (setField fso "values" (Json.arr r1)))))).isTruthy
        = true :=
    arr_truthy_of_ne_nil _ (set_ne_nil items jf _ hitemsne)
  have hfonew : filterOptions (items.set jf
      (Json.obj (updFields fso (setField fso "values" (Json.arr r1))))) o
        = Except.ok [Json.obj (updFields fso (setField fso "values" (Json.arr r1)))] :=
    filterOptions_set_singleton items o jf fso _ hjf hother hu_opt
  -- part 1: read_object on the new store
  have hro_new : read_object (write_key db key d') key p o
      = Except.ok [Json.obj (updFields fso (setField fso "values" (Json.arr r1)))] := by
    simp only [read_object]
    rw [hnewdoc]
    rw [if_pos hdnewt]
    rw [hpgnew, ok_bind]
    simp only []
    rw [hat, if_pos rfl]
    rw [show pyIter (Json.arr (items.set jf
      (Json.obj (updFields fso (setField fso "values" (Json.arr r1))))))
        = Except.ok (items.set jf
          (Json.obj (updFields fso (setField fso "values" (Json.arr r1)))))
      from rfl, ok_bind]
    rw [hfonew, ok_bind]
  -- pointwise: non-target entries of the updated values list are cleared
  have hclr : ∀ (i : Nat) (x : Json), r1[i]? = some x → i ≠ jv →
      ∃ fsi, x = Json.obj (setField fsi "selected" (Json.bool false)) := by
    intro i x hx hij
    rw [hset1] at hx
    rw [List.getElem?_set_ne (fun he => hij he.symm)] at hx
    have hilt : i < cleared.length := by
      by_contra hge
      rw [List.getElem?_eq_none (Nat.le_of_not_lt hge)] at hx
      exact Option.noConfusion hx
    have hvl : valsL[i]? = some valsL[i] := by
      rw [List.getElem?_eq_getElem (by rw [← hcllen]; exact hilt)]
    obtain ⟨fsi, hfsi, hcli⟩ := hclget i (valsL[i]) hvl
    rw [hcli] at hx
    exact ⟨fsi, (Option.some.inj hx).symm⟩
  constructor
  · -- at most one selected
    intro l hl
    rw [hro_new] at hl
    have hle : l = [Json.obj (updFields fso (setField fso "values" (Json.arr r1)))] :=
      (Except.ok.inj hl).symm
    subst hle
    intro x hx
    rw [List.mem_singleton] at hx
    subst hx
    simp only [countSelected, Json.get, hu_vals]
    apply filter_selTrue_le_one r1 jv
    intro i x hx hij
    obtain ⟨fsi, hfsi⟩ := hclr i x hx hij
    rw [hfsi]
    exact selTrue_cleared fsi
  · -- reads of other values are unselected
    intro l hl
    -- forward computation of the read
    have hgd : pyGetD (Json.obj (updFields fso (setField fso "values" (Json.arr r1))))
        "values" (Json.arr []) = Except.ok (Json.arr r1) := by
      simp [pyGetD, hu_vals]
    cases hcoll : collectValuesIn r1 v2 with
    | error e =>
      have hcomp : read_value (write_key db key d') key p o v2 = Except.error e := by
        simp only [read_value]
        rw [hnewdoc]
        rw [if_pos hdnewt]
        rw [hpgnew, ok_bind]
        simp only []
        rw [hat, if_pos rfl]
        rw [show pyIter (Json.arr (items.set jf
          (Json.obj (updFields fso (setField fso "values" (Json.arr r1))))))
            = Except.ok (items.set jf
              (Json.obj (updFields fso (setField fso "values" (Json.arr r1)))))
          from rfl, ok_bind]
        rw [hfonew, ok_bind]
        simp only [collectValues]
        rw [hgd, ok_bind]
        rw [show pyIter (Json.arr r1) = Except.ok r1 from rfl, ok_bind]
        rw [hcoll]
        rfl
      rw [hcomp] at hl
      exact Except.noConfusion hl
    | ok here =>
      have hcomp : read_value (write_key db key d') key p o v2
          = (match here with
             | [] => Except.ok []
             | y :: ys => Except.ok (y :: ys)) := by
        simp only [read_value]
        rw [hnewdoc]
        rw [if_pos hdnewt]
        rw [hpgnew, ok_bind]
        simp only []
        rw [hat, if_pos rfl]
        rw [show pyIter (Json.arr (items.set jf
          (Json.obj (updFields fso (setField fso "values" (Json.arr r1))))))
            = Except.ok (items.set jf
              (Json.obj (updFields fso (setField fso "values" (Json.arr r1)))))
          from rfl, ok_bind]
        rw [hfonew, ok_bind]
        simp only [collectValues]
        rw [hgd, ok_bind]
        rw [show pyIter (Json.arr r1) = Except.ok r1 from rfl, ok_bind]
        simp only [hcoll, ok_bind, collectValues, List.append_nil]
        cases here with
        | nil => rfl
        | cons y ys => rfl
      intro x hx
      have hxhere : x ∈ here := by
        cases here with
        | nil =>
          rw [hcomp] at hl
          have : l = [] := (Except.ok.inj hl).symm
          subst this
          simp at hx
        | cons y ys =>
          rw [hcomp] at hl
          have : l = y :: ys := (Except.ok.inj hl).symm
          subst this
          exact hx
      obtain ⟨hmem_r1, fsx, hxo, hxm⟩ := collectValuesIn_ok_mem r1 v2 here hcoll x hxhere
      obtain ⟨i, hi⟩ := List.mem_iff_getElem?.mp hmem_r1
      by_cases hiv : i = jv
      · -- the merged target value cannot match v2
        rw [hiv] at hi
        rw [hset1] at hi
        have hjvlt : jv < cleared.length := by
          by_contra hge
          rw [List.getElem?_eq_none] at hjv
          · exact Option.noConfusion hjv
          · exact Nat.le_of_not_lt hge
        simp only [List.getElem?_set_self hjvlt] at hi
        have hxe : x = Json.obj (updFields fscj (setField fs0 "selected" (Json.bool true))) :=
          (Option.some.inj hi).symm
        have hfsxe : fsx = updFields fscj (setField fs0 "selected" (Json.bool true)) :=
          Json.obj.inj (hxo.symm.trans hxe)
        have hndm : noDupKeys (setField fs0 "selected" (Json.bool true)) = true :=
          noDupKeys_setField fs0 "selected" (Json.bool true) hfs0nd
        have hlv : lookupField fsx "value" = some (Json.str v) := by
          rw [hfsxe]
          rw [lookupField_updFields _ _ "value" hndm]
          rw [lookupField_setField_ne fs0 "selected" "value" (Json.bool true) (by decide)]
          rw [hfs0v]
          rfl
        rw [hlv] at hxm
        simp only [isStrEq, isStrEqJ, decide_eq_true_eq] at hxm
        exact absurd hxm.symm hne
      · obtain ⟨fsi, hfsi⟩ := hclr i x hi hiv
        rw [hfsi]
        simp [Json.get, lookupField_setField_self]

/-- C8: on any successful write (with the first matching option's object
carrying no duplicate keys, as Python dicts do), the persisted document
changes only at the target option's entry under the target property: all
other top-level properties are untouched, every other option entry of the
property list is untouched, and every field of every non-target value
except its selected flag is preserved — the single exempted index jv is
pinned to the target value: the original entry at jv has value = v. -/
theorem write_value_frame
    (db : Store) (key p o v : String) (d' jopt0 : Json) (joptt : List Json)
    (hw : write_value db key p o v = Except.ok (some d'))
    (hro : read_object db key p o = Except.ok (jopt0 :: joptt))
    (hnd : objNoDup jopt0 = true) :
    (write_value_store db key p o v).1 = write_key db key d' ∧
    ∃ (dataFs : List (String × Json)) (items items' : List Json) (j : Nat)
      (u : Json) (fso : List (String × Json)) (valsL r1 : List Json) (jv : Nat),
      read_key_doc db key = Json.obj dataFs ∧
      lookupField dataFs p = some (Json.arr items) ∧
      d' = Json.obj (setField dataFs p (Json.arr items')) ∧
      (∀ k, k ≠ p → Json.get d' k = Json.get (read_key_doc db key) k) ∧
      items' = items.set j u ∧
      items[j]? = some (Json.obj fso) ∧
      isStrEq (lookupField fso "option") o = true ∧
      (∀ (i : Nat), i ≠ j → items'[i]? = items[i]?) ∧
      lookupField fso "values" = some (Json.arr valsL) ∧
      Json.get u "values" = some (Json.arr r1) ∧
      r1.length = valsL.length ∧
      ((valsL[jv]?).bind (fun x => Json.get x "value")) = some (Json.str v) ∧
      (∀ (i : Nat), i ≠ jv → ∀ (k : String), k ≠ "selected" →
        ((r1[i]?).bind (fun x => Json.get x k))
          = ((valsL[i]?).bind (fun x => Json.get x k))) := by
  obtain ⟨jw0, jwt, jow2, jopt0', joptt', r3, jprop, items, r4, h1, h2, h3, h4, h5,
    h6, h7, h8, h9, h10, h11, h12⟩ := write_value_ok_inv db key p o v d' hw
  have hinj := Except.ok.inj (h3.symm.trans hro)
  have hj0 : jopt0 = jopt0' := ((List.cons.inj hinj).1).symm
  have hjt : joptt = joptt' := ((List.cons.inj hinj).2).symm
  subst hj0
  subst hjt
  -- read path determinism
  obtain ⟨dF2, props2, items2, hdata2, hdt2, hlp2, hpt2, hit2, hfo2⟩ :=
    read_object_ok_cons db key p o jopt0 joptt h3
  obtain ⟨dF3, hdata3, hdt3, hlp3⟩ := read_property_ok_inv db key p jprop h5 h6
  have hdF : dF3 = dF2 := Json.obj.inj (hdata3.symm.trans hdata2)
  subst hdF
  have hprops : jprop = props2 := Option.some.inj (hlp3.symm.trans hlp2)
  subst hprops
  have hitems : items = items2 := Except.ok.inj (h7.symm.trans hit2)
  subst hitems
  -- the first matching option
  obtain ⟨j0, fs0h, hjf, hopt_eq, hfm, hhead⟩ :=
    filterOptions_ok_head items o jopt0 joptt hfo2
  have hfsond : noDupKeys fs0h = true := by
    have := hnd
    rw [hopt_eq] at this
    exact this
  -- updateOptions on the head
  obtain ⟨vals, valsL, cleared, r1, rest', hvv, hit3, hcl, hins, hrest', hres3⟩ :=
    updateOptions_cons_inv jopt0 joptt o v (jow2.headD Json.null) none r3 h4
      fs0h hopt_eq hfm
  -- insertValue structure
  rcases insertValue_ok_false cleared v (jow2.headD Json.null)
      none (r1, some false) hins rfl with ⟨_, _, hcontra⟩ | hmain
  · exact Option.noConfusion hcontra
  obtain ⟨jv, fscj, ufs2, hjv, hjvm, hufs2, hpre, hset1⟩ := hmain
  simp only [] at hset1
  -- shapes
  obtain ⟨hcllen, hclget⟩ := clearSelected_ok valsL cleared hcl
  have hclne : cleared ≠ [] := by
    intro hc
    rw [hc] at hjv
    simp at hjv
  have hvlne : valsL ≠ [] := by
    intro hc
    apply hclne
    rw [hc] at hcllen
    exact List.eq_nil_of_length_eq_zero hcllen
  have hvals : vals = Json.arr valsL := pyIter_clear_arr vals valsL cleared hit3 hcl hvlne
  rw [hvals] at hres3
  simp only [reconstructSeq] at hres3
  have hnfsnd : noDupKeys (setField fs0h "values" (Json.arr r1)) = true :=
    noDupKeys_setField fs0h "values" (Json.arr r1) hfsond
  have hr31h : r3.1.headD Json.null
      = Json.obj (setField fs0h "values" (Json.arr r1)) := by
    rw [hres3]
    rfl
  rw [hr31h] at h8
  -- spliceOption structure
  rcases spliceOption_ok_false items o (Json.obj (setField fs0h "values" (Json.arr r1)))
      r3.2 r4 h8 h9 with ⟨hitems_nil, _, _⟩ | hsmain
  · rw [hitems_nil] at hjf
    simp at hjf
  obtain ⟨js, fsj, nfs2, hjs, hjsm, hnfs2, hspre, hset2⟩ := hsmain
  have hnfs2e : nfs2 = setField fs0h "values" (Json.arr r1) := (Json.obj.inj hnfs2).symm
  subst hnfs2e
  have hjse : j0 = js :=
    first_match_unique items o j0 js fs0h fsj hjf hfm hhead hjs hjsm hspre
  subst hjse
  have hfsje : fs0h = fsj := Json.obj.inj (Option.some.inj (hjf.symm.trans hjs))
  subst hfsje
  -- the new document
  have hjpa : jprop = Json.arr items := pyIter_obj_elem_arr jprop items j0 fs0h h7 hjf
  have hrc : read_configOptions db key = Json.obj dF3 := by
    simp only [read_configOptions]
    rw [hdata3]
    rw [if_pos hdt3]
  rw [hrc, hjpa, hset2] at h12
  simp only [reconstructSeq, setItem] at h12
  have hd' : d' = Json.obj (setField dF3 p
      (Json.arr (items.set j0
        (Json.obj (updFields fs0h (setField fs0h "values" (Json.arr r1))))))) :=
    (Except.ok.inj h12).symm
  have hu_vals : lookupField
      (updFields fs0h (setField fs0h "values" (Json.arr r1))) "values"
        = some (Json.arr r1) := by
    rw [lookupField_updFields _ _ "values" hnfsnd]
    rw [lookupField_setField_self]
    rfl
  constructor
  · unfold write_value_store
    rw [hw]
  refine ⟨dF3, items, items.set j0
      (Json.obj (updFields fs0h (setField fs0h "values" (Json.arr r1)))),
    j0, Json.obj (updFields fs0h (setField fs0h "values" (Json.arr r1))),
    fs0h, valsL, r1, jv, hdata3, ?_, hd', ?_, rfl, hjf, hfm, ?_, ?_, ?_, ?_, ?_, ?_⟩
  · rw [← hjpa]
    exact hlp3
  · intro k hk
    rw [hd', hdata3]
    simp only [Json.get]
    exact lookupField_setField_ne dF3 p k _ hk
  · intro i hi
    exact List.getElem?_set_ne (fun he => hi he.symm)
  · rw [← hvals]
    exact hvv
  · simp only [Json.get]
    exact hu_vals
  · rw [hset1]
    rw [List.length_set]
    exact hcllen
  · -- the exempted index jv is exactly the entry whose value field is v
    have hjvlt : jv < cleared.length := by
      by_contra hge
      rw [List.getElem?_eq_none (Nat.le_of_not_lt hge)] at hjv
      exact Option.noConfusion hjv
    have hvjv : valsL[jv]? = some valsL[jv] :=
      List.getElem?_eq_getElem (by rw [← hcllen]; exact hjvlt)
    obtain ⟨fsy, hfsy, hcljv⟩ := hclget jv (valsL[jv]) hvjv
    have hfscj : fscj = setField fsy "selected" (Json.bool false) :=
      Json.obj.inj (Option.some.inj (hjv.symm.trans hcljv))
    rw [hfscj] at hjvm
    rw [lookupField_setField_ne fsy "selected" "value" (Json.bool false)
      (by decide)] at hjvm
    have hval : lookupField fsy "value" = some (Json.str v) :=
      isStrEq_true_elim _ v hjvm
    rw [hvjv]
    show Json.get valsL[jv] "value" = some (Json.str v)
    rw [hfsy]
    simp only [Json.get]
    exact hval
  · intro i hi k hk
    rw [hset1]
    rw [List.getElem?_set_ne (fun he => hi he.symm)]
    by_cases hilt : i < valsL.length
    · have hvl : valsL[i]? = some valsL[i] := List.getElem?_eq_getElem hilt
      obtain ⟨fsi, hfsi, hcli⟩ := hclget i (valsL[i]) hvl
      rw [hvl, hcli]
      show Json.get (Json.obj (setField fsi "selected" (Json.bool false))) k
          = Json.get valsL[i] k
      rw [hfsi]
      simp only [Json.get]
      exact lookupField_setField_ne fsi "selected" k (Json.bool false) hk
    · have hge := Nat.le_of_not_lt hilt
      rw [List.getElem?_eq_none hge, List.getElem?_eq_none (by rw [hcllen]; exact hge)]


/-- Witness for C1's amended theorem at the partition-scheme scenario:
after writing custom, the read of default returns selected = false. -/
theorem write_value_selected_exclusive_witness :
    Json.get (Json.obj [("value", Json.str "default"), ("selected", Json.bool false)])
        "selected" = some (Json.bool false) := by
  have h := write_value_selected_exclusive exDb exKey "configOptions" "PartitionScheme"
    "custom" "default" exDocAfter exOpt
    [Json.obj [("value", Json.str "custom"), ("selected", Json.bool false)]]
    rfl rfl rfl rfl (by decide) (by decide)
  exact h.2 [Json.obj [("value", Json.str "default"), ("selected", Json.bool false)]]
    rfl _ (by simp)

/-- Witness for C8 at the partition-scheme scenario. -/
theorem write_value_frame_witness :
    (write_value_store exDb exKey "configOptions" "PartitionScheme" "custom").1
      = write_key exDb exKey exDocAfter :=
  (write_value_frame exDb exKey "configOptions" "PartitionScheme" "custom" exDocAfter
    exOpt [] rfl rfl rfl).1
